import Mathlib

set_option maxRecDepth 100000

/-!
Shallow embedding of the training core of the `llm-workings` repository:
the seeded multiply-with-carry generator and the `Network` class
(`src/network/Network.ts`), the activation/loss helpers
(`src/network/functions.ts`), and the training orchestrator hook
(`src/web/src/hooks/useTraining.ts`).

Numbers are idealized as exact rationals (for the generator, whose JS
arithmetic is exact) and exact reals (for network arithmetic, where the
source uses IEEE doubles).  JS bitwise operators work on 32-bit two's
complement integers; we model them with explicit `Int.emod` / `Int.fdiv`
arithmetic.  Fallible JS code (out-of-bounds object accesses, which throw
`TypeError`) is modelled with `Option`.
-/

/-- JS `>>> 0`: interpret an exact integer as an unsigned 32-bit value. -/
def toUint32 (n : Int) : Int := Int.emod n 4294967296

/-- JS `ToInt32`: interpret an exact integer as a signed 32-bit value
(this is what `&`, `<<` and `>>` apply to their operands). -/
def toInt32 (n : Int) : Int :=
  let m := Int.emod n 4294967296
  if m < 2147483648 then m else m - 4294967296

/-- State of the two-lane multiply-with-carry generator used both by the
`Network` constructor and by `seededRandom` in `useTraining.ts`.  The
stored values are the JS numbers held by the closure: after seeding they
lie in `[0, 2^32)`; after an update they are `ToInt32` values. -/
structure MWC where
  m_w : Int
  m_z : Int
deriving Repr, DecidableEq

/-- Seeding, from both sources (identical code):
`m_w = (seed * 1103515245 + 12345) >>> 0`, `m_z = (seed * 134775813 + 1) >>> 0`,
each forced to `1` if zero.  The seed is treated as an exact integer
(the source's doubles are exact for all seeds used). -/
def mwcInit (seed : Int) : MWC :=
  let w0 := toUint32 (seed * 1103515245 + 12345)
  let z0 := toUint32 (seed * 134775813 + 1)
  ⟨if w0 = 0 then 1 else w0, if z0 = 0 then 1 else z0⟩

/-- One `random()` call:
`m_z = (36969 * (m_z & 65535) + (m_z >> 16)) & 0xffffffff` (and the same
for `m_w` with multiplier 18000), then
`result = ((m_z << 16) + (m_w & 65535)) >>> 0`.
JS `x & 0xffffffff` equals `ToInt32 x` (the mask converts to `-1`);
`x & 65535` is `x mod 2^16` and `x >> 16` is an arithmetic (floor) shift
of `ToInt32 x`.  Returns the new closure state and the 32-bit `result`. -/
def mwcStep (s : MWC) : MWC × Int :=
  let mz := toInt32 (36969 * Int.emod s.m_z 65536 + Int.fdiv (toInt32 s.m_z) 65536)
  let mw := toInt32 (18000 * Int.emod s.m_w 65536 + Int.fdiv (toInt32 s.m_w) 65536)
  let result := toUint32 (toInt32 (mz * 65536) + Int.emod mw 65536)
  (⟨mw, mz⟩, result)

/-- State advance without looking at the output. -/
def mwcNext (s : MWC) : MWC := (mwcStep s).1

/-- The value `random()` returns: `result / 4294967296`, an exact rational. -/
def mwcVal (s : MWC) : ℚ := ((mwcStep s).2 : ℚ) / 4294967296

/-- Generator state after seeding and the 10 discarded warm-up draws
(`for (let i = 0; i < 10; i++) random();`). -/
def mwcWarm (seed : Int) : MWC := mwcNext^[10] (mwcInit seed)

/-- The value of the `m`-th (0-based) `random()` call made after the
warm-up, for a given seed.  Used to state draw-order properties. -/
def nthDraw (seed : Int) (m : Nat) : ℚ := mwcVal (mwcNext^[m] (mwcWarm seed))

theorem mwcVal_warm_iterate (seed : Int) (m : Nat) :
    mwcVal (mwcNext^[m] (mwcWarm seed)) = nthDraw seed m := rfl

/-! ## Activation and loss helpers (`src/network/functions.ts`)

The source's scalar/vector overloads are modelled by the scalar function
plus `List.map` at call sites, exactly as the vector overload computes. -/

/-- `sigmoid(x) = 1 / (1 + Math.exp(-x))`. -/
noncomputable def sigmoid (x : ℝ) : ℝ := 1 / (1 + Real.exp (-x))

/-- `reluDerivative(preActivation) = preActivation > 0 ? 1 : 0`. -/
noncomputable def reluDerivative (preActivation : ℝ) : ℝ :=
  if 0 < preActivation then 1 else 0

/-- The clamping constant `eps = 1e-7` that appears in
`binaryCrossEntropy` and in `Network.backward`. -/
noncomputable def epsClamp : ℝ := 1e-7

/-- `binaryCrossEntropy(predicted, target)`: mean over `i < predicted.length`
of `-(target[i]*log p + (1-target[i])*log(1-p))` with
`p = max(eps, min(1-eps, predicted[i]))`.  A `target` shorter than
`predicted` would produce NaN in the source (`undefined` arithmetic);
the `getD` default-0 reads model only the in-bounds case exercised here. -/
noncomputable def binaryCrossEntropy (predicted target : List ℝ) : ℝ :=
  ((List.range predicted.length).map fun i =>
    (let p := max epsClamp (min (1 - epsClamp) (predicted.getD i 0));
     -(target.getD i 0 * Real.log p + (1 - target.getD i 0) * Real.log (1 - p)))).sum
  / predicted.length

/-- `confidencePenalty(predicted)`: mean of `4p(1-p)` (unclamped). -/
noncomputable def confidencePenalty (predicted : List ℝ) : ℝ :=
  (predicted.map fun p => 4 * p * (1 - p)).sum / predicted.length

/-! ## The Network engine (`src/network/Network.ts`)

Fields mirror the class fields; the four intermediate/gradient fields are
initialized to `[]` by the class field initializers. -/

structure Network where
  layerSizes : List Nat
  weights : List (List (List ℝ))
  biases : List (List ℝ)
  preActivations : List (List ℝ)
  activations : List (List ℝ)
  weightGrads : List (List (List ℝ))
  biasGrads : List (List ℝ)

/-- `getState()` returns deep copies of the six mutable arrays; on
immutable values a deep copy is the value itself. -/
structure NetworkState where
  weights : List (List (List ℝ))
  biases : List (List ℝ)
  preActivations : List (List ℝ)
  activations : List (List ℝ)
  weightGrads : List (List (List ℝ))
  biasGrads : List (List ℝ)

def Network.getState (net : Network) : NetworkState :=
  ⟨net.weights, net.biases, net.preActivations, net.activations,
   net.weightGrads, net.biasGrads⟩

/-- `setState(state)` overwrites all six arrays with deep copies;
`layerSizes` is not part of the state and is kept. -/
def Network.setState (net : Network) (s : NetworkState) : Network :=
  { net with
    weights := s.weights, biases := s.biases,
    preActivations := s.preActivations, activations := s.activations,
    weightGrads := s.weightGrads, biasGrads := s.biasGrads }

/-- One layer of `forward`: `z = activation @ w + b`, following the loops
`for (i < activation.length) for (j < w[i].length) z[j] += activation[i]*w[i][j]`
and `for (j < b.length) z[j] += b[j]` on `z = new Array(w[0].length).fill(0)`.
For `j < w[0].length`, row `i` contributes only when `j < w[i].length`.
(Writes past `z`'s allocated length, possible only for ragged rows or a
`b` longer than `w[0]` — shapes the constructor never produces — extend
the JS array and are not modelled.) -/
noncomputable def layerZ (w : List (List ℝ)) (b : List ℝ) (act : List ℝ) : List ℝ :=
  (List.range w.headI.length).map fun j =>
    ((List.range act.length).map fun i =>
      if j < (w.getD i []).length then act.getD i 0 * (w.getD i []).getD j 0 else 0).sum
    + (if j < b.length then b.getD j 0 else 0)

/-- The layer loop of `forward`, threading the current activation and
accumulating `preActivations` / `activations`.  `none` models the JS
`TypeError`s: `w[0].length` with an empty `w`, `w[i].length` with
`i ≥ w.length` (input longer than the weight matrix's row count), and
`b.length` with a missing bias vector.  The last layer keeps `z` linear;
hidden layers apply `Math.max(0, ·)` elementwise. -/
noncomputable def forwardLayers :
    List (List (List ℝ)) → List (List ℝ) → List ℝ →
    List (List ℝ) → List (List ℝ) → Option (List (List ℝ) × List (List ℝ) × List ℝ)
  | [], _, act, preAcc, actAcc => some (preAcc, actAcc, act)
  | _ :: _, [], _, _, _ => none
  | w :: ws, b :: bs', act, preAcc, actAcc =>
    if w.isEmpty then none
    else if w.length < act.length then none
    else
      forwardLayers ws bs'
        (if ws.isEmpty then layerZ w b act
         else (layerZ w b act).map fun v => max 0 v)
        (preAcc ++ [layerZ w b act])
        (actAcc ++ [if ws.isEmpty then layerZ w b act
                    else (layerZ w b act).map fun v => max 0 v])

/-- `forward(x)`: sets `activations = [x]`, `preActivations = []`, runs the
layer loop, stores the intermediates and returns the final activation.
(On a JS `TypeError` the source leaves partially-updated intermediates
behind; we model the call as failing with no result.) -/
noncomputable def Network.forward (net : Network) (x : List ℝ) :
    Option (Network × List ℝ) :=
  match forwardLayers net.weights net.biases x [] [x] with
  | none => none
  | some (pre, acts, out) =>
    some ({ net with preActivations := pre, activations := acts }, out)

/-- The descending loop of `backward`
(`for (let i = this.weights.length - 1; i >= 0; i--)`), with the counter
`i + 1` standing for current index `i`.  At index `i` it overwrites
`weightGrads[i][j][k] = activationIn[j] * delta[k]` for `j` below
`activationIn.length` and `k` below `delta.length` (other entries keep
their initialized zeros), sets `biasGrads[i] = [...delta]`, and for
`i > 0` computes `newDelta[j] = Σ_k delta[k] * weights[i][j][k]` followed
by the elementwise ReLU-gradient mask from `preActivations[i-1]`.
Out-of-bounds element reads (mismatched stored shapes, never produced by
`forward` on a well-formed engine) give NaN in the source and are read as
the `getD` defaults here. -/
noncomputable def backLoop (W : List (List (List ℝ))) (acts preActs : List (List ℝ)) :
    Nat → List ℝ → List (List (List ℝ)) → List (List ℝ) →
    List (List (List ℝ)) × List (List ℝ)
  | 0, _, wg, bg => (wg, bg)
  | i + 1, delta, wg, bg =>
    let actIn := acts.getD i []
    let wg' := wg.set i ((wg.getD i []).mapIdx fun j row =>
      row.mapIdx fun k z0 =>
        if j < actIn.length ∧ k < delta.length
        then actIn.getD j 0 * delta.getD k 0 else z0)
    let bg' := bg.set i delta
    match i with
    | 0 => (wg', bg')
    | i' + 1 =>
      let newDelta := (List.range actIn.length).map fun j =>
        ((List.range delta.length).map fun k =>
          delta.getD k 0 * ((W.getD i []).getD j []).getD k 0).sum
      let reluGrad := (preActs.getD i' []).map fun z => if 0 < z then (1:ℝ) else 0
      let delta' := newDelta.mapIdx fun j d => d * reluGrad.getD j 0
      backLoop W acts preActs (i' + 1) delta' wg' bg'

/-- `backward(_x, target, confidencePenalty = 0)`.  The first parameter is
unused in the source (named `_x`).  Applies `sigmoid` to the last stored
activation, zero-initializes both gradient holders at the shapes of the
current parameters, clamps the predicted probabilities into
`[eps, 1-eps]` for the BCE gradient, optionally (`confidencePenalty > 0`)
adds the confidence-penalty gradient, multiplies by the *unclamped*
sigmoid derivative `output * (1 - output)`, and runs the descending
layer loop.  Only `weightGrads` and `biasGrads` are replaced. -/
noncomputable def Network.backward (net : Network) (x target : List ℝ)
    (confidencePenaltyStrength : ℝ) : Network :=
  let outputArray := net.activations.getD (net.activations.length - 1) []
  let output := outputArray.map sigmoid
  let wg0 := net.weights.map fun w => w.map fun row => row.map fun _ => (0:ℝ)
  let bg0 := net.biases.map fun b => b.map fun _ => (0:ℝ)
  let p := output.map fun v => max epsClamp (min (1 - epsClamp) v)
  let delta0 := target.mapIdx fun i y =>
    (-y / p.getD i 0 + (1 - y) / (1 - p.getD i 0)) +
    (if 0 < confidencePenaltyStrength
     then confidencePenaltyStrength * 4 * (1 - 2 * p.getD i 0) else 0)
  let dpDz := output.map fun v => v * (1 - v)
  let delta1 := delta0.mapIdx fun i d => d * dpDz.getD i 0
  let grads := backLoop net.weights net.activations net.preActivations
    net.weights.length delta1 wg0 bg0
  { net with weightGrads := grads.1, biasGrads := grads.2 }

/-- Collects a list of optional values, failing if any entry failed. -/
def seqOption {β : Type} : List (Option β) → Option (List β)
  | [] => some []
  | none :: _ => none
  | some b :: rest => (seqOption rest).map fun l => b :: l

/-- One row of the `step` update,
`for (k < row.length) row[k] -= lr * grad[k]`.  An empty row performs no
reads, so it succeeds even with the gradient row missing.  A missing
gradient row (`undefined[k]`) throws in the source: `none`.  A too-short
gradient row would store NaN (`lr * undefined`) in the source; that
defect is also signalled as `none` here (no claim exercises it: gradients
are either absent as a whole or exactly parameter-shaped). -/
noncomputable def updRow (lr : ℝ) (row : List ℝ) (g : Option (List ℝ)) :
    Option (List ℝ) :=
  if row.isEmpty then some row
  else
    match g with
    | none => none
    | some gr =>
      if gr.length < row.length then none
      else some (row.mapIdx fun k w => w - lr * gr.getD k 0)

/-- The weight-matrix part of `step` for one connection. -/
noncomputable def updMatrix (lr : ℝ) (m : List (List ℝ))
    (g : Option (List (List ℝ))) : Option (List (List ℝ)) :=
  seqOption (m.mapIdx fun j row => updRow lr row (g.bind fun gm => gm.get? j))

/-- `step(learningRate)`: `param -= learningRate * grad` for every weight
and bias, reading `weightGrads[i][j][k]` / `biasGrads[i][j]`. -/
noncomputable def Network.step (net : Network) (learningRate : ℝ) :
    Option Network :=
  match
    seqOption (net.weights.mapIdx fun i m =>
      updMatrix learningRate m (net.weightGrads.get? i)),
    seqOption (net.biases.mapIdx fun i b =>
      updRow learningRate b (net.biasGrads.get? i)) with
  | some ws, some bs => some { net with weights := ws, biases := bs }
  | _, _ => none

/-! ## The seeded constructor (`Network.constructor`, lines 23-78)

The generator draws (exact rationals) are separated from the Box-Muller
transform (real-valued): each weight consumes two consecutive draws
`u1 = random(); u2 = random()` in row-major order within each connection,
connections in order — exactly the source's draw sequence. -/

/-- Two consecutive `random()` calls: the pair `(u1, u2)` and the state
after both. -/
def drawTwo (g : MWC) : MWC × (ℚ × ℚ) :=
  (mwcNext (mwcNext g), (mwcVal g, mwcVal (mwcNext g)))

/-- The inner `for (k < outputSize)` loop: one row's draw pairs. -/
def drawRowPairs : MWC → Nat → MWC × List (ℚ × ℚ)
  | g, 0 => (g, [])
  | g, n + 1 =>
    let t := drawTwo g
    let rest := drawRowPairs t.1 n
    (rest.1, t.2 :: rest.2)

/-- The `for (j < inputSize)` loop: draw pairs for a `rows × cols` matrix. -/
def drawMatrixPairs : MWC → Nat → Nat → MWC × List (List (ℚ × ℚ))
  | g, 0, _ => (g, [])
  | g, r + 1, c =>
    let row := drawRowPairs g c
    let rest := drawMatrixPairs row.1 r c
    (rest.1, row.2 :: rest.2)

/-- The `for (i < layerSizes.length - 1)` loop: draw pairs per connection,
tagged with that connection's `(inputSize, outputSize)`. -/
def drawConnPairs : MWC → List (Nat × Nat) → List ((Nat × Nat) × List (List (ℚ × ℚ)))
  | _, [] => []
  | g, io :: rest =>
    let m := drawMatrixPairs g io.1 io.2
    (io, m.2) :: drawConnPairs m.1 rest

/-- `z = Math.sqrt(-2 * Math.log(u1)) * Math.cos(2 * Math.PI * u2)` —
the Box-Muller transform exactly as in the source: no clamping of `u1`. -/
noncomputable def boxMuller (u1 u2 : ℚ) : ℝ :=
  Real.sqrt (-2 * Real.log (u1 : ℝ)) * Real.cos (2 * Real.pi * (u2 : ℝ))

/-- The seeded constructor `new Network(layerSizes, seed)`: warms the
generator 10 cycles, then fills each connection's `inputSize × outputSize`
weight matrix with `z * Math.sqrt(2.0 / fanIn)` (`fanIn = inputSize`) and
its bias vector with zeros; the four scratch fields start `[]`. -/
noncomputable def netInit (layerSizes : List Nat) (seed : Int) : Network :=
  let conns := drawConnPairs (mwcWarm seed) (layerSizes.zip layerSizes.tail)
  { layerSizes := layerSizes
    weights := conns.map fun c => c.2.map fun row => row.map fun p =>
      boxMuller p.1 p.2 * Real.sqrt (2 / (c.1.1 : ℝ))
    biases := conns.map fun c => List.replicate c.1.2 (0:ℝ)
    preActivations := []
    activations := []
    weightGrads := []
    biasGrads := [] }

/-! ## The training orchestrator (`src/web/src/hooks/useTraining.ts`)

`seededRandom` is the same two-lane generator as the constructor's
(`mwcInit` / `mwcStep` / 10 warm-up draws).  The dataset generator works
entirely on exact dyadic rationals, so `ℚ` models it exactly. -/

/-- One dataset point of `generateNoisyData`. -/
structure DataPoint where
  input : List ℚ
  target : List ℚ
  trueTarget : List ℚ
  isNoisy : Bool
deriving Repr, DecidableEq

/-- The sampling loop of `generateNoisyData`: per sample, draws `x1`, `x2`,
computes `trueLabel = (x1 >= 0.5 ? 1 : 0) ^ (x2 >= 0.5 ? 1 : 0)` (bitwise
XOR of the two indicator bits), then draws a third uniform and flips the
label when it is `< noiseLevel`. -/
def genLoop : MWC → Nat → ℚ → List DataPoint
  | _, 0, _ => []
  | g, n + 1, noiseLevel =>
    let x1 := mwcVal g
    let g1 := mwcNext g
    let x2 := mwcVal g1
    let g2 := mwcNext g1
    let trueLabel : ℕ :=
      (if (1:ℚ)/2 ≤ x1 then 1 else 0) ^^^ (if (1:ℚ)/2 ≤ x2 then 1 else 0)
    let u := mwcVal g2
    let g3 := mwcNext g2
    let isNoisy := decide (u < noiseLevel)
    let label : ℚ := if isNoisy then 1 - (trueLabel : ℚ) else (trueLabel : ℚ)
    ⟨[x1, x2], [label], [(trueLabel : ℚ)], isNoisy⟩ :: genLoop g3 n noiseLevel

/-- `generateNoisyData(numSamples, noiseLevel, seed)`. -/
def generateNoisyData (numSamples : Nat) (noiseLevel : ℚ) (seed : Int) :
    List DataPoint :=
  genLoop (mwcWarm seed) numSamples noiseLevel

/-- The four canonical XOR points (`CLEAN_XOR`), as (input, target). -/
noncomputable def CLEAN_XOR : List (List ℝ × List ℝ) :=
  [([0, 0], [0]), ([0, 1], [1]), ([1, 0], [1]), ([1, 1], [0])]

/-- Loop of `computeTrainLoss`: runs `net.forward` on every point (which
mutates the engine's intermediates — the engine is threaded through) and
accumulates BCE plus the optional confidence penalty. -/
noncomputable def trainLossLoop (confPenalty : ℝ) :
    Network → List (List ℝ × List ℝ) → Option (Network × ℝ)
  | net, [] => some (net, 0)
  | net, pt :: rest =>
    match net.forward pt.1 with
    | none => none
    | some (net1, output) =>
      let sigmoidOutput := output.map sigmoid
      let loss := binaryCrossEntropy sigmoidOutput pt.2 +
        (if 0 < confPenalty then confPenalty * confidencePenalty sigmoidOutput else 0)
      match trainLossLoop confPenalty net1 rest with
      | none => none
      | some (net2, acc) => some (net2, loss + acc)

/-- `computeTrainLoss(net, data, confPenalty)`: mean loss over `data`.
(For empty `data` the source's `0/0` is NaN; here `0/0 = 0`; no claim
uses an empty dataset.) -/
noncomputable def computeTrainLoss (net : Network)
    (data : List (List ℝ × List ℝ)) (confPenalty : ℝ) : Option (Network × ℝ) :=
  (trainLossLoop confPenalty net data).map fun r => (r.1, r.2 / data.length)

/-- Loop of `computeCleanMetrics`: per canonical point, forward, BCE loss,
and `correct++` when `(sigmoidOutput[0] >= 0.5 ? 1 : 0) === target[0]`. -/
noncomputable def cleanMetricsLoop :
    Network → List (List ℝ × List ℝ) → Option (Network × ℝ × ℕ)
  | net, [] => some (net, 0, 0)
  | net, pt :: rest =>
    match net.forward pt.1 with
    | none => none
    | some (net1, output) =>
      let s := output.map sigmoid
      let l := binaryCrossEntropy s pt.2
      let predicted : ℝ := if (1:ℝ)/2 ≤ s.getD 0 0 then 1 else 0
      let c : ℕ := if predicted = pt.2.getD 0 0 then 1 else 0
      match cleanMetricsLoop net1 rest with
      | none => none
      | some (net2, lacc, cacc) => some (net2, l + lacc, c + cacc)

/-- `computeCleanMetrics(net)`: `(engine after the four forwards,
mean clean loss, accuracy)` over `CLEAN_XOR`. -/
noncomputable def computeCleanMetrics (net : Network) :
    Option (Network × ℝ × ℝ) :=
  (cleanMetricsLoop net CLEAN_XOR).map fun r => (r.1, r.2.1 / 4, (r.2.2 : ℝ) / 4)

/-- One entry of the orchestrator's history (`interface TrainingStep`). -/
structure TrainingStep where
  step : Nat
  state : NetworkState
  loss : ℝ
  cleanLoss : ℝ
  accuracy : ℝ
  currentInputIdx : Nat

/-- The orchestrator's state (`interface TrainingState`). -/
structure TrainingState where
  network : Network
  steps : List TrainingStep
  currentStep : Nat
  isPlaying : Bool
  selectedInputIdx : Nat

instance : Inhabited Network := ⟨⟨[], [], [], [], [], [], []⟩⟩

instance : Inhabited NetworkState := ⟨⟨[], [], [], [], [], []⟩⟩

noncomputable instance : Inhabited TrainingStep := ⟨⟨0, default, 0, 0, 0, 0⟩⟩

/-- `new Network(sizes)` followed by `setState(s)`: every field the
unseeded constructor randomized is overwritten by `setState`, so the
result is determined by `sizes` and `s` (the `Math.random` draws of the
throwaway engine are irrelevant and not modelled). -/
def rehydrate (sizes : List Nat) (s : NetworkState) : Network :=
  ⟨sizes, s.weights, s.biases, s.preActivations, s.activations,
   s.weightGrads, s.biasGrads⟩

/-- The epoch loop of `trainStep`:
`net.forward(input); net.backward(input, target, confidencePenalty);
net.step(learningRate)` for every training point in order. -/
noncomputable def runEpoch (cp lr : ℝ) :
    Network → List (List ℝ × List ℝ) → Option Network
  | net, [] => some net
  | net, pt :: rest =>
    match net.forward pt.1 with
    | none => none
    | some (net1, _) =>
      match (net1.backward pt.1 pt.2 cp).step lr with
      | none => none
      | some net3 => runEpoch cp lr net3 rest

/-- `trainStep` (the epoch-advance transition): rehydrates an engine from
the snapshot at `currentStep`, trains one epoch, captures `getState()`
*before* the metric passes, recomputes metrics (which run further
forwards on the same engine), appends the new snapshot with step index
`currentStep + 1`, and advances `currentStep`.  (A `currentStep` outside
the history would throw in the source; `getD` keeps it total — the
orchestrator invariant keeps it in range.) -/
noncomputable def trainStep (data : List (List ℝ × List ℝ)) (cp lr : ℝ)
    (prev : TrainingState) : Option TrainingState :=
  let base := rehydrate prev.network.layerSizes
    ((prev.steps.getD prev.currentStep default).state)
  match runEpoch cp lr base data with
  | none => none
  | some net1 =>
    let newState := net1.getState
    match computeTrainLoss net1 data cp with
    | none => none
    | some (net2, loss) =>
      match computeCleanMetrics net2 with
      | none => none
      | some (net3, metrics) =>
        some { prev with
          network := net3
          steps := prev.steps ++
            [⟨prev.currentStep + 1, newState, loss, metrics.1, metrics.2, 0⟩]
          currentStep := prev.currentStep + 1 }

/-- `goToStep(step)`: rejected (state returned unchanged) when
`step < 0 || step >= prev.steps.length`; otherwise rehydrates an engine
from snapshot `step` and sets `currentStep`. -/
noncomputable def goToStep (prev : TrainingState) (step : Int) : TrainingState :=
  if step < 0 ∨ (prev.steps.length : Int) ≤ step then prev
  else
    { prev with
      network := rehydrate prev.network.layerSizes
        ((prev.steps.getD step.toNat default).state)
      currentStep := step.toNat }

/-- `n` consecutive (successful) epoch-advance calls. -/
noncomputable def iterEpochs (data : List (List ℝ × List ℝ)) (cp lr : ℝ) :
    Nat → TrainingState → Option TrainingState
  | 0, s => some s
  | n + 1, s => (iterEpochs data cp lr n s).bind (trainStep data cp lr)

/-- `createInitialState(seed)`: fresh seeded engine, metrics, and a
single step-0 snapshot whose state is captured after the metric passes
(matching the source's statement order). -/
noncomputable def createInitialState (sizes : List Nat) (seed : Int)
    (data : List (List ℝ × List ℝ)) (cp : ℝ) : Option TrainingState :=
  match computeTrainLoss (netInit sizes seed) data cp with
  | none => none
  | some (net1, loss) =>
    match computeCleanMetrics net1 with
    | none => none
    | some (net2, metrics) =>
      some { network := net2
             steps := [⟨0, net2.getState, loss, metrics.1, metrics.2, 0⟩]
             currentStep := 0
             isPlaying := false
             selectedInputIdx := 0 }

noncomputable instance : Inhabited TrainingState :=
  ⟨⟨default, [], 0, false, 0⟩⟩

/-- Shape well-formedness of a weight/bias stack, as the seeded
constructor produces it: every connection has a nonempty weight matrix
with rows of uniform length, a bias vector of that same length, and the
next connection's row count equals this connection's column count. -/
def wfW : List (List (List ℝ)) → List (List ℝ) → Bool
  | [], [] => true
  | w :: ws, b :: bs =>
    !w.isEmpty &&
    w.all (fun row => row.length == w.headI.length) &&
    (b.length == w.headI.length) &&
    (match ws with
     | [] => true
     | w' :: _ => w'.length == w.headI.length) &&
    wfW ws bs
  | _, _ => false

/-- A well-formed engine: at least one connection, shapes as above. -/
def wfNet (net : Network) : Bool :=
  !net.weights.isEmpty && wfW net.weights net.biases

/-- Concrete two-input, one-output engine used as an explicit test
vehicle: weights `[[1],[2]]` (2×1), bias `[0]`, scratch fields empty. -/
noncomputable def exNet : Network :=
  ⟨[2, 1], [[[1], [2]]], [[0]], [], [], [], []⟩

/-- Concrete orchestrator state with a two-snapshot history. -/
noncomputable def exTrainingState : TrainingState :=
  ⟨default, [⟨0, default, 0, 0, 0, 0⟩, ⟨1, default, 0, 0, 0, 0⟩], 1, false, 0⟩

/-- The dataset point whose three uniforms are the generator draws at
absolute positions `m`, `m+1`, `m+2` (after warm-up), written with the
position-indexed draw stream `nthDraw` — the spec-side description of
one `generateNoisyData` sample. -/
def specDataPointAt (noiseLevel : ℚ) (seed : Int) (m : ℕ) : DataPoint :=
  let x1 := nthDraw seed m
  let x2 := nthDraw seed (m + 1)
  let u := nthDraw seed (m + 2)
  let trueLabel : ℕ :=
    (if (1:ℚ)/2 ≤ x1 then 1 else 0) ^^^ (if (1:ℚ)/2 ≤ x2 then 1 else 0)
  let isNoisy := decide (u < noiseLevel)
  ⟨[x1, x2],
   [if isNoisy then 1 - (trueLabel : ℚ) else (trueLabel : ℚ)],
   [(trueLabel : ℚ)],
   isNoisy⟩

/-- Concrete initial orchestrator state: a single step-0 snapshot. -/
noncomputable def exS0 : TrainingState :=
  ⟨default, [⟨0, default, 0, 0, 0, 0⟩], 0, false, 0⟩

/-- The pair of consecutive draws at absolute positions `t`, `t+1`. -/
def pairAt (seed : Int) (t : ℕ) : ℚ × ℚ := (nthDraw seed t, nthDraw seed (t + 1))

/-- Weight prescribed by the spec (§4.2) for the flat weight index `N`
(row-major within connections, connections in order) of a connection with
fan-in `fanIn`, with `u1` *clamped away from 0*: `z * sqrt(2 / fanIn)`
with `z = sqrt(-2 ln (max ε u1)) * cos(2π u2)` and `u1, u2` the
consecutive draws `2N`, `2N+1`.  The spec names no clamping threshold;
`ε = 1e-7` is the codebase's only clamping constant. -/
noncomputable def specWeightClamped (seed : Int) (fanIn N : ℕ) : ℝ :=
  Real.sqrt (-2 * Real.log (max epsClamp ((nthDraw seed (2 * N) : ℚ) : ℝ))) *
    Real.cos (2 * Real.pi * ((nthDraw seed (2 * N + 1) : ℚ) : ℝ)) *
    Real.sqrt (2 / (fanIn : ℝ))

/-- Same prescription without the clamp (the amended claim): the
Box-Muller transform applied directly to the consecutive draws. -/
noncomputable def specWeightNoClamp (seed : Int) (fanIn N : ℕ) : ℝ :=
  boxMuller (nthDraw seed (2 * N)) (nthDraw seed (2 * N + 1)) *
    Real.sqrt (2 / (fanIn : ℝ))

/-- Spec-side parameter builder: for the connection list `ps` (as
`(inputSize, outputSize)` pairs) starting at flat weight index `N`,
the weight matrices (entry `[j][k]` at flat index `N + j*outputSize + k`)
and the all-zero bias vectors. -/
noncomputable def specNetBuild (weightAt : ℕ → ℕ → ℝ) :
    ℕ → List (Nat × Nat) → List (List (List ℝ)) × List (List ℝ)
  | _, [] => ([], [])
  | N, io :: rest =>
    (((List.range io.1).map fun j => (List.range io.2).map fun k =>
        weightAt io.1 (N + j * io.2 + k)) ::
      (specNetBuild weightAt (N + io.1 * io.2) rest).1,
     List.replicate io.2 0 :: (specNetBuild weightAt (N + io.1 * io.2) rest).2)

/-- The constructor as the pre-amendment claim describes it (clamped `u1`). -/
noncomputable def netInitSpecClamped (sizes : List Nat) (seed : Int) : Network :=
  ⟨sizes,
   (specNetBuild (specWeightClamped seed) 0 (sizes.zip sizes.tail)).1,
   (specNetBuild (specWeightClamped seed) 0 (sizes.zip sizes.tail)).2,
   [], [], [], []⟩

/-- The constructor as the amended claim describes it (no clamp). -/
noncomputable def netInitSpecNoClamp (sizes : List Nat) (seed : Int) : Network :=
  ⟨sizes,
   (specNetBuild (specWeightNoClamp seed) 0 (sizes.zip sizes.tail)).1,
   (specNetBuild (specWeightNoClamp seed) 0 (sizes.zip sizes.tail)).2,
   [], [], [], []⟩

/-- Dot product of two vectors (spec-side linear algebra). -/
noncomputable def dotList (a b : List ℝ) : ℝ :=
  (List.zipWith (fun x y => x * y) a b).sum

/-- `W · δ` with `W` given by rows: entry `j` is `row_j · δ`. -/
noncomputable def matVecRows (W : List (List ℝ)) (d : List ℝ) : List ℝ :=
  W.map fun row => dotList row d

/-- Elementwise (Hadamard) product. -/
noncomputable def hadamard (a b : List ℝ) : List ℝ :=
  List.zipWith (fun x y => x * y) a b

/-- Outer product: entry `[j][k]` is `a_j * d_k`. -/
noncomputable def outerProd (a d : List ℝ) : List (List ℝ) :=
  a.map fun x => d.map fun y => x * y

/-- The output-layer error signal as the *amended* claim states it:
`δ_i = (-y_i/p_i + (1-y_i)/(1-p_i) + s*4*(1-2p_i)) * q_i*(1-q_i)`, where
`q` is the logistic squashing of the last layer's stored raw
pre-activation and `p` is `q` clamped into `[ε, 1-ε]`: the clamped `p`
feeds the loss gradient, the *unclamped* `q` the logistic-derivative
factor (the amendment — the original claim uses `p` in both). -/
noncomputable def amendedOutputDelta (net : Network) (target : List ℝ) (s : ℝ) : List ℝ :=
  target.mapIdx fun i y =>
    (-y / (max epsClamp (min (1 - epsClamp)
        (sigmoid ((net.preActivations.getD (net.preActivations.length - 1) []).getD i 0))) : ℝ)
      + (1 - y) / (1 - max epsClamp (min (1 - epsClamp)
        (sigmoid ((net.preActivations.getD (net.preActivations.length - 1) []).getD i 0))))
      + s * 4 * (1 - 2 * max epsClamp (min (1 - epsClamp)
        (sigmoid ((net.preActivations.getD (net.preActivations.length - 1) []).getD i 0))))) *
    (sigmoid ((net.preActivations.getD (net.preActivations.length - 1) []).getD i 0) *
      (1 - sigmoid ((net.preActivations.getD (net.preActivations.length - 1) []).getD i 0)))

/-- The output-layer error signal exactly as the original claim states
it: the clamped `p` is used both in the loss gradient *and* in the
logistic-derivative factor `p*(1-p)`. -/
noncomputable def claimedOutputDelta (net : Network) (target : List ℝ) (s : ℝ) : List ℝ :=
  target.mapIdx fun i y =>
    (-y / (max epsClamp (min (1 - epsClamp)
        (sigmoid ((net.preActivations.getD (net.preActivations.length - 1) []).getD i 0))) : ℝ)
      + (1 - y) / (1 - max epsClamp (min (1 - epsClamp)
        (sigmoid ((net.preActivations.getD (net.preActivations.length - 1) []).getD i 0))))
      + s * 4 * (1 - 2 * max epsClamp (min (1 - epsClamp)
        (sigmoid ((net.preActivations.getD (net.preActivations.length - 1) []).getD i 0))))) *
    (max epsClamp (min (1 - epsClamp)
        (sigmoid ((net.preActivations.getD (net.preActivations.length - 1) []).getD i 0))) *
      (1 - max epsClamp (min (1 - epsClamp)
        (sigmoid ((net.preActivations.getD (net.preActivations.length - 1) []).getD i 0)))))

/-- The error signal at distance `d` from the last connection
(`d = 0`: the output delta; generally the delta of connection
`L-1-d`), by the spec's backward recurrence
`δ_{i-1} = (W_i · δ_i) ⊙ reluDerivative(preActivation_{i-1})`. -/
noncomputable def specDeltaD (net : Network) (target : List ℝ) (s : ℝ) : ℕ → List ℝ
  | 0 => amendedOutputDelta net target s
  | d + 1 =>
    hadamard
      (matVecRows (net.weights.getD (net.weights.length - 1 - d) [])
        (specDeltaD net target s d))
      ((net.preActivations.getD (net.weights.length - 2 - d) []).map reluDerivative)

/-- Shape consistency of an engine's stored intermediates relative to its
parameters — exactly what holds right after a successful `forward` on a
well-formed engine (`L` abbreviates the connection count). -/
def BackShape (net : Network) (t : List ℝ) : Prop :=
  1 ≤ net.weights.length ∧
  net.activations.length = net.weights.length + 1 ∧
  net.preActivations.length = net.weights.length ∧
  net.biases.length = net.weights.length ∧
  (∀ i, i < net.weights.length →
    (net.activations.getD i []).length = (net.weights.getD i []).length) ∧
  (∀ i, i < net.weights.length →
    (net.preActivations.getD i []).length = (net.weights.getD i []).headI.length) ∧
  (∀ i, i < net.weights.length → ∀ row ∈ net.weights.getD i [],
    row.length = (net.weights.getD i []).headI.length) ∧
  (∀ i, i + 1 < net.weights.length →
    (net.weights.getD (i + 1) []).length = (net.weights.getD i []).headI.length) ∧
  net.activations.getD net.weights.length [] =
    net.preActivations.getD (net.weights.length - 1) [] ∧
  t.length = (net.weights.getD (net.weights.length - 1) []).headI.length

/-- The engine used by the C1 counterexample: one connection, weight 17,
bias 0, so `forward [1]` stores the raw pre-activation `[17]`, a point at
which the sigmoid output exceeds `1 - 1e-7` and the clamp is active. -/
noncomputable def netC1 : Network := ⟨[1, 1], [[[17]]], [[0]], [], [], [], []⟩

/-- `netC1` after `forward [1]`. -/
noncomputable def netC1f : Network :=
  ⟨[1, 1], [[[17]]], [[0]], [[17]], [[1], [17]], [], []⟩

/-- `exNet` after `forward [1, 1]`: pre-activation `1*1 + 1*2 + 0 = 3`. -/
noncomputable def exNetF : Network :=
  ⟨[2, 1], [[[1], [2]]], [[0]], [[3]], [[1, 1], [3]], [], []⟩

/-! # Theorems -/

theorem getD_replicate_zero (m k : ℕ) : (List.replicate m (0:ℝ)).getD k 0 = 0 := by
  rcases Nat.lt_or_ge k m with h | h
  · rw [List.getD_eq_getElem _ _ (by simpa using h)]
    simp
  · rw [List.getD_eq_default]
    simpa using h

theorem sum_range_pad (f g : ℕ → ℝ) (n m : ℕ)
    (h0 : ∀ i, i < n → f i = g i) (h : ∀ i, n ≤ i → f i = 0) :
    ((List.range (n + m)).map f).sum = ((List.range n).map g).sum := by
  rw [List.range_add, List.map_append, List.sum_append, List.map_map]
  have hz : (((List.range m).map fun i => n + i).map f).sum = 0 := by
    apply List.sum_eq_zero
    intro y hy
    rw [List.map_map] at hy
    obtain ⟨i, _, rfl⟩ := List.mem_map.mp hy
    exact h _ (Nat.le_add_right n i)
  rw [List.map_map] at hz
  rw [hz, add_zero]
  exact congrArg List.sum (List.map_congr_left fun i hi => h0 i (List.mem_range.mp hi))

theorem layerZ_length (w : List (List ℝ)) (b : List ℝ) (act : List ℝ) :
    (layerZ w b act).length = w.headI.length := by
  simp [layerZ]

theorem layerZ_append_zeros (w : List (List ℝ)) (b : List ℝ) (x : List ℝ) (m : ℕ) :
    layerZ w b (x ++ List.replicate m 0) = layerZ w b x := by
  unfold layerZ
  apply List.map_congr_left
  intro j _
  congr 1
  have hlen : (x ++ List.replicate m 0).length = x.length + m := by simp
  rw [hlen]
  apply sum_range_pad
  · intro i hi
    rw [List.getD_append _ _ _ _ hi]
  · intro i hi
    rw [List.getD_append_right _ _ _ _ hi, getD_replicate_zero]
    simp

theorem forwardLayers_out_eq (ws : List (List (List ℝ))) :
    ∀ (bs : List (List ℝ)) (act : List ℝ) (pre acts pre' acts' : List (List ℝ)),
    (forwardLayers ws bs act pre acts).map (fun r => r.2.2) =
      (forwardLayers ws bs act pre' acts').map (fun r => r.2.2) := by
  induction ws with
  | nil => intros; rfl
  | cons w ws ih =>
    intro bs act pre acts pre' acts'
    cases bs with
    | nil => rfl
    | cons b bs' =>
      unfold forwardLayers
      by_cases h1 : w.isEmpty = true
      · rw [if_pos h1, if_pos h1]
      · rw [if_neg h1, if_neg h1]
        by_cases h2 : w.length < act.length
        · rw [if_pos h2, if_pos h2]
        · rw [if_neg h2, if_neg h2]
          exact ih bs' _ _ _ _ _

theorem forwardLayers_isSome (ws : List (List (List ℝ))) :
    ∀ (bs : List (List ℝ)) (act : List ℝ) (pre acts : List (List ℝ)),
    wfW ws bs = true → (ws = [] ∨ act.length ≤ ws.headI.length) →
    (forwardLayers ws bs act pre acts).isSome = true := by
  induction ws with
  | nil => intros; rfl
  | cons w ws ih =>
    intro bs act pre acts hwf hl
    cases bs with
    | nil => exact absurd hwf (by simp [wfW])
    | cons b bs' =>
      unfold wfW at hwf
      simp only [Bool.and_eq_true] at hwf
      obtain ⟨⟨⟨⟨h1, _⟩, _⟩, h4⟩, h5⟩ := hwf
      have hne : ¬ w.isEmpty = true := by simpa using h1
      have hlen : act.length ≤ w.length := by
        rcases hl with h | h
        · exact absurd h (by simp)
        · simpa using h
      unfold forwardLayers
      rw [if_neg hne, if_neg (by omega)]
      apply ih
      · exact h5
      · cases ws with
        | nil => exact Or.inl rfl
        | cons w' ws' =>
          right
          have hw' : w'.length = w.headI.length := by simpa using h4
          have hhead : (w' :: ws').headI = w' := rfl
          simp only [List.isEmpty_cons, Bool.false_eq_true, if_false,
            List.length_map, layerZ_length, hhead]
          omega

theorem forward_map_snd (net : Network) (x : List ℝ) :
    (net.forward x).map (fun r => r.2) =
      (forwardLayers net.weights net.biases x [] [x]).map (fun r => r.2.2) := by
  unfold Network.forward
  cases h : forwardLayers net.weights net.biases x [] [x] <;> simp [h]

theorem forward_isSome (net : Network) (x : List ℝ) (hwf : wfNet net = true)
    (hx : x.length ≤ net.weights.headI.length) :
    (net.forward x).isSome = true := by
  unfold wfNet at hwf
  simp only [Bool.and_eq_true] at hwf
  unfold Network.forward
  have h := forwardLayers_isSome net.weights net.biases x [] [x] hwf.2 (Or.inr hx)
  cases hfl : forwardLayers net.weights net.biases x [] [x] with
  | none => rw [hfl] at h; exact absurd h (by simp)
  | some v => rfl

theorem forward_too_long (net : Network) (x : List ℝ)
    (hne : net.weights ≠ []) (hx : net.weights.headI.length < x.length) :
    net.forward x = none := by
  obtain ⟨w, ws, hw⟩ : ∃ w ws, net.weights = w :: ws := by
    cases h : net.weights
    · exact absurd h hne
    · exact ⟨_, _, rfl⟩
  unfold Network.forward
  rw [hw]
  rw [hw] at hx
  simp only [List.headI] at hx
  cases net.biases with
  | nil => rfl
  | cons b bs' =>
    unfold forwardLayers
    by_cases h1 : w.isEmpty = true
    · rw [if_pos h1]
    · rw [if_neg h1, if_pos hx]

theorem forward_pad (net : Network) (x : List ℝ) (hwf : wfNet net = true)
    (hx : x.length ≤ net.weights.headI.length) :
    (net.forward (x ++ List.replicate (net.weights.headI.length - x.length) 0)).map
        (fun r => r.2) =
      (net.forward x).map (fun r => r.2) := by
  unfold wfNet at hwf
  simp only [Bool.and_eq_true] at hwf
  obtain ⟨hne, hwf⟩ := hwf
  obtain ⟨w, ws, hw⟩ : ∃ w ws, net.weights = w :: ws := by
    cases h : net.weights
    · rw [h] at hne; exact absurd hne (by simp)
    · exact ⟨_, _, rfl⟩
  cases hb : net.biases with
  | nil => rw [hw, hb] at hwf; exact absurd hwf (by simp [wfW])
  | cons b bs' =>
    rw [hw, hb] at hwf
    unfold wfW at hwf
    simp only [Bool.and_eq_true] at hwf
    obtain ⟨⟨⟨⟨h1, _⟩, _⟩, _⟩, _⟩ := hwf
    have hne1 : ¬ w.isEmpty = true := by simpa using h1
    have hhead : net.weights.headI = w := by rw [hw]; rfl
    rw [hhead] at hx
    have hplen : (x ++ List.replicate (w.length - x.length) 0).length = w.length := by
      simp only [List.length_append, List.length_replicate]
      omega
    rw [forward_map_snd, forward_map_snd, hhead, hw, hb]
    unfold forwardLayers
    have hc1 : ¬ (w.length < (x ++ List.replicate (w.length - x.length) 0).length) := by
      omega
    have hc2 : ¬ (w.length < x.length) := by omega
    rw [if_neg hne1, if_neg hc1, if_neg hne1, if_neg hc2, layerZ_append_zeros]
    exact forwardLayers_out_eq ws bs' _ _ _ _ _

/-- C9: `backward` populates only the gradient holders: the weights,
biases, pre-activations and activations of the engine are value-equal
before and after the call, for every engine state, target and
confidence-penalty strength. -/
theorem backward_frame (net : Network) (x target : List ℝ) (s : ℝ) :
    (net.backward x target s).weights = net.weights ∧
    (net.backward x target s).biases = net.biases ∧
    (net.backward x target s).preActivations = net.preActivations ∧
    (net.backward x target s).activations = net.activations :=
  ⟨rfl, rfl, rfl, rfl⟩

/-- C10: the first (input-vector) argument of `backward` has no effect:
on identical engine states with the same target and penalty strength but
arbitrary different first arguments, the resulting engines (gradients
included) are identical — `backward` reads only the stored intermediates. -/
theorem backward_ignores_input (net : Network) (x1 x2 target : List ℝ) (s : ℝ) :
    net.backward x1 target s = net.backward x2 target s := rfl

/-- C5: `setState (getState e)` on any other engine `e2` reproduces `e`'s
exported state exactly, and the rehydrated engine's `forward` returns the
same output vector as `e`'s on every probe input (same success/failure,
same output). -/
theorem getState_setState_roundTrip (e e2 : Network) :
    (e2.setState e.getState).getState = e.getState ∧
    ∀ input : List ℝ,
      ((e2.setState e.getState).forward input).map (fun r => r.2) =
        (e.forward input).map (fun r => r.2) := by
  refine ⟨rfl, fun input => ?_⟩
  unfold Network.forward Network.setState Network.getState
  dsimp only
  cases forwardLayers e.weights e.biases input [] [input] with
  | none => rfl
  | some v => rfl

/-- C6 (part 1 of the statement, both branches in one theorem): `goTo`
with `0 ≤ k < history.length` sets `currentIndex := k` and rehydrates the
engine from snapshot `k`'s stored state, leaving the history and all
other fields unchanged; `goTo` with `k` outside that range returns the
state completely unchanged (rejected, never clamped). -/
theorem goToStep_correct (s : TrainingState) (k : Int) :
    (0 ≤ k ∧ k < (s.steps.length : Int) →
      goToStep s k =
        { s with
          network := rehydrate s.network.layerSizes
            ((s.steps.getD k.toNat default).state)
          currentStep := k.toNat }) ∧
    (k < 0 ∨ (s.steps.length : Int) ≤ k → goToStep s k = s) := by
  constructor
  · rintro ⟨h0, hlt⟩
    unfold goToStep
    rw [if_neg (by omega)]
  · intro h
    unfold goToStep
    rw [if_pos (by omega)]

/-- C6 witness: a concrete in-range navigation (`k = 1`) and a concrete
out-of-range rejection (`k = 5`) on a two-snapshot history. -/
theorem goToStep_correct_witness :
    goToStep exTrainingState 1 =
      { exTrainingState with
        network := rehydrate exTrainingState.network.layerSizes
          ((exTrainingState.steps.getD (1 : Int).toNat default).state)
        currentStep := (1 : Int).toNat } ∧
    goToStep exTrainingState 5 = exTrainingState :=
  ⟨(goToStep_correct exTrainingState 1).1 (by constructor <;> decide),
   (goToStep_correct exTrainingState 5).2 (by right; decide)⟩

/-- C3 counterexample: on the engine `exNet` (input width `topology[0] = 2`)
the call `forward [3]` with an input of the wrong length 1 does not fail:
it succeeds, computing as if the missing input entry were zero, and
returns `[3]` — refuting "forward fails fast on every wrong-length input". -/
theorem forward_short_input_accepted :
    exNet.forward [3] =
      some ({ exNet with preActivations := [[3]], activations := [[3], [3]] }, [3]) := by
  show Network.forward exNet [3] = _
  unfold Network.forward exNet forwardLayers
  norm_num [layerZ, List.range_succ]
  rfl

/-- C3 (amended): `forward` performs no input-length validation.  An input
longer than `topology[0]` (the first weight matrix's row count) makes the
call fail with a runtime error; an input of length at most `topology[0]`
is accepted, and its output equals the output for the same input
zero-padded to full width — the short input is silently treated as
zero-padded, never rejected. -/
theorem forward_no_length_check (net : Network) (x : List ℝ) (hwf : wfNet net = true) :
    (net.weights.headI.length < x.length → net.forward x = none) ∧
    (x.length ≤ net.weights.headI.length →
      (net.forward x).isSome = true ∧
      (net.forward (x ++ List.replicate (net.weights.headI.length - x.length) 0)).map
          (fun r => r.2) = (net.forward x).map (fun r => r.2)) := by
  constructor
  · intro h
    apply forward_too_long net x _ h
    unfold wfNet at hwf
    simp only [Bool.and_eq_true] at hwf
    intro hnil
    rw [hnil] at hwf
    simpa using hwf.1
  · intro h
    exact ⟨forward_isSome net x hwf h, forward_pad net x hwf h⟩

/-- C3 witness: both branches of the amended statement exercised on
`exNet`: a length-3 input faults, a length-1 input succeeds with the same
output as its zero-padded completion. -/
theorem forward_no_length_check_witness :
    (exNet.forward [3, 3, 3] = none) ∧
    ((exNet.forward [3]).isSome = true ∧
      (exNet.forward ([3] ++ List.replicate (exNet.weights.headI.length -
          ([3] : List ℝ).length) 0)).map (fun r => r.2) =
        (exNet.forward [3]).map (fun r => r.2)) :=
  ⟨(forward_no_length_check exNet [3, 3, 3] (by decide)).1 (by decide),
   (forward_no_length_check exNet [3] (by decide)).2 (by decide)⟩

theorem drawRowPairs_length (c : ℕ) : ∀ g : MWC, (drawRowPairs g c).2.length = c := by
  induction c with
  | zero => intro g; rfl
  | succ n ih => intro g; simp [drawRowPairs, ih]

theorem drawMatrixPairs_length (r : ℕ) :
    ∀ (g : MWC) (c : ℕ), (drawMatrixPairs g r c).2.length = r := by
  induction r with
  | zero => intro g c; rfl
  | succ n ih => intro g c; simp [drawMatrixPairs, ih]

theorem drawMatrixPairs_row_length (r : ℕ) :
    ∀ (g : MWC) (c : ℕ) (row : List (ℚ × ℚ)),
      row ∈ (drawMatrixPairs g r c).2 → row.length = c := by
  induction r with
  | zero => intro g c row h; simp [drawMatrixPairs] at h
  | succ n ih =>
    intro g c row h
    simp only [drawMatrixPairs, List.mem_cons] at h
    rcases h with rfl | h
    · exact drawRowPairs_length c g
    · exact ih _ c row h

theorem step_fresh_none (a b : ℕ) (rest : List ℕ) (seed : Int) (lr : ℝ)
    (ha : 0 < a) (hb : 0 < b) :
    (netInit (a :: b :: rest) seed).step lr = none := by
  obtain ⟨p, prow, M', hM⟩ : ∃ p prow M',
      (drawMatrixPairs (mwcWarm seed) a b).2 = (p :: prow) :: M' := by
    have hlen := drawMatrixPairs_length a (mwcWarm seed) b
    cases hMM : (drawMatrixPairs (mwcWarm seed) a b).2 with
    | nil => rw [hMM] at hlen; simp at hlen; omega
    | cons r M' =>
      have hr : r.length = b := by
        apply drawMatrixPairs_row_length a (mwcWarm seed) b
        rw [hMM]; exact List.mem_cons_self r M'
      cases r with
      | nil => simp at hr; omega
      | cons p prow => exact ⟨p, prow, M', rfl⟩
  have hG : (netInit (a :: b :: rest) seed).weightGrads = [] := rfl
  have hW0 : (netInit (a :: b :: rest) seed).weights.get? 0 =
      some (((p :: prow) :: M').map fun row => row.map fun q =>
        boxMuller q.1 q.2 * Real.sqrt (2 / (a : ℝ))) := by
    unfold netInit
    simp only [List.tail_cons, List.zip_cons_cons, drawConnPairs, List.map_cons,
      List.get?_cons_zero, hM]
  cases hw : (netInit (a :: b :: rest) seed).weights with
  | nil => rw [hw] at hW0; simp at hW0
  | cons W tl =>
    rw [hw] at hW0
    simp only [List.get?_cons_zero, Option.some.injEq] at hW0
    subst hW0
    unfold Network.step
    rw [hw, hG]
    simp [updMatrix, updRow, seqOption, List.mapIdx_cons]

/-- C8 counterexample: on the freshly seeded engine `new Network([2,1], 123)`,
on which `backward` has never run, `step(0.5)` faults (the gradient
holders are `[]`, not zero-filled, so `weightGrads[0][0][0]` is an access
into `undefined`) — refuting "step before backward is a safe no-op". -/
theorem step_on_fresh_engine_faults :
    (netInit [2, 1] 123).step (1 / 2) = none :=
  step_fresh_none 2 1 [] 123 (1 / 2) (by norm_num) (by norm_num)

/-- C8 (amended): on every freshly constructed seeded engine with an input
layer and a first hidden/output layer of nonzero width, calling `step`
before any `backward` faults (a `TypeError` in the source, `none` here):
the gradients are initialized to empty arrays rather than zeros, so the
misuse does not degrade to a no-op update. -/
theorem step_before_backward_faults (a b : ℕ) (rest : List ℕ) (seed : Int)
    (lr : ℝ) (ha : 0 < a) (hb : 0 < b) :
    (netInit (a :: b :: rest) seed).step lr = none :=
  step_fresh_none a b rest seed lr ha hb

/-- C8 witness: the amended statement at the concrete topology `[2,4,1]`,
seed 7, learning rate 1. -/
theorem step_before_backward_faults_witness :
    (netInit [2, 4, 1] 7).step 1 = none :=
  step_before_backward_faults 2 4 [1] 7 1 (by norm_num) (by norm_num)

theorem genLoop_length (nl : ℚ) : ∀ (n : ℕ) (g : MWC), (genLoop g n nl).length = n := by
  intro n
  induction n with
  | zero => intro g; rfl
  | succ k ih => intro g; simp [genLoop, ih]

theorem genLoop_get (nl : ℚ) (seed : Int) :
    ∀ (n m i : ℕ), i < n →
      (genLoop (mwcNext^[m] (mwcWarm seed)) n nl).get? i =
        some (specDataPointAt nl seed (m + 3 * i)) := by
  intro n
  induction n with
  | zero => intro m i h; omega
  | succ k ih =>
    intro m i h
    have h1 : mwcNext (mwcNext^[m] (mwcWarm seed)) = mwcNext^[m + 1] (mwcWarm seed) :=
      (Function.iterate_succ_apply' mwcNext m (mwcWarm seed)).symm
    have h2 : mwcNext (mwcNext^[m + 1] (mwcWarm seed)) =
        mwcNext^[m + 2] (mwcWarm seed) :=
      (Function.iterate_succ_apply' mwcNext (m + 1) (mwcWarm seed)).symm
    have h3 : mwcNext (mwcNext^[m + 2] (mwcWarm seed)) =
        mwcNext^[m + 3] (mwcWarm seed) :=
      (Function.iterate_succ_apply' mwcNext (m + 2) (mwcWarm seed)).symm
    cases i with
    | zero =>
      simp only [genLoop, h1, h2, List.get?_cons_zero, Option.some.injEq]
      show DataPoint.mk _ _ _ _ = _
      simp only [specDataPointAt, nthDraw, Nat.mul_zero, Nat.add_zero]
    | succ i' =>
      have hlt : i' < k := by omega
      simp only [genLoop, h1, h2, h3, List.get?_cons_succ]
      rw [ih (m + 3) i' hlt]
      have harg : m + 3 + 3 * i' = m + 3 * (i' + 1) := by ring
      rw [harg]

/-- C7: the dataset generator returns exactly `numSamples` points in
insertion order; point `i` is built from the three consecutive seeded
draws at positions `3i, 3i+1, 3i+2`: its inputs are the first two draws,
its true label is the 0/1-encoded XOR of `(x1 ≥ 0.5)` and `(x2 ≥ 0.5)`,
and its stored label is flipped to `1 - trueLabel` exactly when the third
draw is `< noiseLevel`, with `isNoisy` recording the flip.  Determinism
in the arguments is definitional: the result is a pure function of
`(numSamples, noiseLevel, seed)`. -/
theorem generateNoisyData_correct (numSamples : ℕ) (noiseLevel : ℚ) (seed : Int)
    (hn : 0 < numSamples) (h0 : 0 ≤ noiseLevel) (h1 : noiseLevel ≤ 1) :
    (generateNoisyData numSamples noiseLevel seed).length = numSamples ∧
    ∀ i, i < numSamples →
      (generateNoisyData numSamples noiseLevel seed).get? i =
        some (specDataPointAt noiseLevel seed (3 * i)) := by
  constructor
  · exact genLoop_length noiseLevel numSamples (mwcWarm seed)
  · intro i hi
    have h := genLoop_get noiseLevel seed numSamples 0 i hi
    rw [Nat.zero_add] at h
    have hg : mwcNext^[0] (mwcWarm seed) = mwcWarm seed := rfl
    rw [hg] at h
    exact h

/-- C7 witness: the characterization applied at
`generateNoisyData 2 (1/2) 42`, point 1. -/
theorem generateNoisyData_correct_witness :
    (generateNoisyData 2 (1/2) 42).length = 2 ∧
    ∀ i, i < 2 → (generateNoisyData 2 (1/2) 42).get? i =
      some (specDataPointAt (1/2) 42 (3 * i)) :=
  generateNoisyData_correct 2 (1/2) 42 (by norm_num) (by norm_num) (by norm_num)

theorem trainStep_appends (data : List (List ℝ × List ℝ)) (cp lr : ℝ)
    (s s' : TrainingState) (h : trainStep data cp lr s = some s') :
    s'.currentStep = s.currentStep + 1 ∧
    ∃ st : TrainingStep, s'.steps = s.steps ++ [st] ∧ st.step = s.currentStep + 1 := by
  simp only [trainStep] at h
  split at h
  · exact absurd h (by simp)
  · split at h
    · exact absurd h (by simp)
    · split at h
      · exact absurd h (by simp)
      · rw [Option.some.injEq] at h
        subst h
        exact ⟨rfl, _, rfl, rfl⟩

/-- C4: starting from an initial orchestrator state whose history is a
single step-0 snapshot with `currentIndex = 0`, after `n` successful
epoch-advance calls the history has length `n+1`, the snapshot at
position `i` carries step index `i` for every `i ≤ n` (the step indices
are exactly `0..n`), `currentIndex = n`, and every single call only
appends to the history (the previous snapshots are preserved as a
prefix, never mutated). -/
theorem advanceEpoch_history (data : List (List ℝ × List ℝ)) (cp lr : ℝ) (n : ℕ)
    (s0 sn : TrainingState)
    (hsteps : s0.steps.map TrainingStep.step = [0]) (hc : s0.currentStep = 0)
    (hrun : iterEpochs data cp lr n s0 = some sn) :
    sn.steps.length = n + 1 ∧
    sn.steps.map TrainingStep.step = List.range (n + 1) ∧
    sn.currentStep = n ∧
    (∀ (k : ℕ) (sk sk1 : TrainingState), iterEpochs data cp lr k s0 = some sk →
      trainStep data cp lr sk = some sk1 → ∃ t, sk1.steps = sk.steps ++ t) := by
  have main : ∀ (m : ℕ) (sm : TrainingState), iterEpochs data cp lr m s0 = some sm →
      sm.steps.map TrainingStep.step = List.range (m + 1) ∧ sm.currentStep = m := by
    intro m
    induction m with
    | zero =>
      intro sm h
      have hs : s0 = sm := by simpa [iterEpochs] using h
      subst hs
      refine ⟨?_, hc⟩
      rw [hsteps]
      rfl
    | succ k ih =>
      intro sm h
      rw [iterEpochs] at h
      obtain ⟨sk, hk, hstep⟩ := Option.bind_eq_some.mp h
      obtain ⟨hcs, st, hsteps', hstid⟩ := trainStep_appends data cp lr sk sm hstep
      obtain ⟨hmap, hcur⟩ := ih sk hk
      constructor
      · rw [hsteps', List.map_append, hmap, List.map_cons, List.map_nil, hstid, hcur]
        simp [List.range_succ]
      · rw [hcs, hcur]
  obtain ⟨hmap, hcur⟩ := main n sn hrun
  refine ⟨?_, hmap, hcur, ?_⟩
  · have hlen := congrArg List.length hmap
    simpa using hlen
  · intro k sk sk1 hk hstep
    obtain ⟨_, st, hs, _⟩ := trainStep_appends data cp lr sk sk1 hstep
    exact ⟨[st], hs⟩

/-- C4 witness: the theorem applied at `n = 0` to the concrete initial
state `exS0` (one step-0 snapshot, `currentIndex = 0`). -/
theorem advanceEpoch_history_witness :
    exS0.steps.length = 0 + 1 ∧
    exS0.steps.map TrainingStep.step = List.range (0 + 1) ∧
    exS0.currentStep = 0 ∧
    (∀ (k : ℕ) (sk sk1 : TrainingState), iterEpochs [] 0 0 k exS0 = some sk →
      trainStep [] 0 0 sk = some sk1 → ∃ t, sk1.steps = sk.steps ++ t) :=
  advanceEpoch_history [] 0 0 0 exS0 exS0 rfl rfl rfl

theorem drawTwo_at (seed : Int) (m : ℕ) :
    drawTwo (mwcNext^[m] (mwcWarm seed)) =
      (mwcNext^[m + 2] (mwcWarm seed), pairAt seed m) := by
  have h1 : mwcNext (mwcNext^[m] (mwcWarm seed)) = mwcNext^[m + 1] (mwcWarm seed) :=
    (Function.iterate_succ_apply' mwcNext m (mwcWarm seed)).symm
  have h2 : mwcNext (mwcNext^[m + 1] (mwcWarm seed)) = mwcNext^[m + 2] (mwcWarm seed) :=
    (Function.iterate_succ_apply' mwcNext (m + 1) (mwcWarm seed)).symm
  unfold drawTwo pairAt nthDraw
  rw [h1, h2]

theorem drawRowPairs_at (seed : Int) (c : ℕ) : ∀ m : ℕ,
    drawRowPairs (mwcNext^[m] (mwcWarm seed)) c =
      (mwcNext^[m + 2 * c] (mwcWarm seed),
       (List.range c).map fun k => pairAt seed (m + 2 * k)) := by
  induction c with
  | zero => intro m; simp [drawRowPairs]
  | succ c ih =>
    intro m
    simp only [drawRowPairs]
    rw [drawTwo_at seed m, ih (m + 2)]
    have harith : m + 2 + 2 * c = m + 2 * (c + 1) := by ring
    rw [harith, List.range_succ_eq_map, List.map_cons, List.map_map]
    congr 1
    refine congrArg₂ List.cons ?_ ?_
    · show pairAt seed m = pairAt seed (m + 2 * 0)
      norm_num
    · refine List.map_congr_left fun k _ => ?_
      show pairAt seed (m + 2 + 2 * k) = pairAt seed (m + 2 * (k + 1))
      congr 1
      ring

theorem drawMatrixPairs_at (seed : Int) (r : ℕ) : ∀ (m c : ℕ),
    drawMatrixPairs (mwcNext^[m] (mwcWarm seed)) r c =
      (mwcNext^[m + 2 * (r * c)] (mwcWarm seed),
       (List.range r).map fun j => (List.range c).map fun k =>
         pairAt seed (m + 2 * (j * c + k))) := by
  induction r with
  | zero => intro m c; simp [drawMatrixPairs]
  | succ r ih =>
    intro m c
    simp only [drawMatrixPairs]
    rw [drawRowPairs_at seed c m, ih (m + 2 * c) c]
    have h1 : m + 2 * c + 2 * (r * c) = m + 2 * ((r + 1) * c) := by ring
    rw [h1, List.range_succ_eq_map, List.map_cons, List.map_map]
    congr 1
    refine congrArg₂ List.cons ?_ ?_
    · show (List.range c).map (fun k => pairAt seed (m + 2 * k)) =
        (List.range c).map fun k => pairAt seed (m + 2 * (0 * c + k))
      refine List.map_congr_left fun k _ => ?_
      congr 1
      omega
    · refine List.map_congr_left fun j _ => ?_
      show (List.range c).map (fun k => pairAt seed (m + 2 * c + 2 * (j * c + k))) =
        (List.range c).map fun k => pairAt seed (m + 2 * ((j + 1) * c + k))
      refine List.map_congr_left fun k _ => ?_
      congr 1
      ring

theorem drawConn_spec (seed : Int) (ps : List (Nat × Nat)) : ∀ N : ℕ,
    ((drawConnPairs (mwcNext^[2 * N] (mwcWarm seed)) ps).map fun c =>
        c.2.map fun row => row.map fun p =>
          boxMuller p.1 p.2 * Real.sqrt (2 / (c.1.1 : ℝ))) =
      (specNetBuild (specWeightNoClamp seed) N ps).1 ∧
    ((drawConnPairs (mwcNext^[2 * N] (mwcWarm seed)) ps).map fun c =>
        List.replicate c.1.2 (0 : ℝ)) =
      (specNetBuild (specWeightNoClamp seed) N ps).2 := by
  induction ps with
  | nil => intro N; exact ⟨rfl, rfl⟩
  | cons io rest ih =>
    intro N
    obtain ⟨a, b⟩ := io
    simp only [drawConnPairs, specNetBuild]
    rw [drawMatrixPairs_at seed a (2 * N) b]
    have h2 : 2 * N + 2 * (a * b) = 2 * (N + a * b) := by ring
    simp only [h2]
    obtain ⟨ihw, ihb⟩ := ih (N + a * b)
    constructor
    · rw [List.map_cons]
      refine congrArg₂ List.cons ?_ ihw
      rw [List.map_map]
      refine List.map_congr_left fun j _ => ?_
      show ((List.range b).map fun k => pairAt seed (2 * N + 2 * (j * b + k))).map
          (fun p => boxMuller p.1 p.2 * Real.sqrt (2 / (a : ℝ))) =
        (List.range b).map fun k => specWeightNoClamp seed a (N + j * b + k)
      rw [List.map_map]
      refine List.map_congr_left fun k _ => ?_
      show boxMuller (pairAt seed (2 * N + 2 * (j * b + k))).1
          (pairAt seed (2 * N + 2 * (j * b + k))).2 * Real.sqrt (2 / (a : ℝ)) =
        specWeightNoClamp seed a (N + j * b + k)
      unfold specWeightNoClamp pairAt
      have e : 2 * (N + j * b + k) = 2 * N + 2 * (j * b + k) := by ring
      rw [e]
    · rw [List.map_cons]
      exact congrArg₂ List.cons rfl ihb

theorem netInit_eq_spec (sizes : List Nat) (seed : Int) :
    netInit sizes seed = netInitSpecNoClamp sizes seed := by
  have h := drawConn_spec seed (sizes.zip sizes.tail) 0
  have h0 : mwcNext^[2 * 0] (mwcWarm seed) = mwcWarm seed := rfl
  rw [h0] at h
  simp only [netInit, netInitSpecNoClamp, Network.mk.injEq, true_and, and_true]
  exact ⟨h.1, h.2⟩

/-- C2 (amended): for every topology and seeded generator, the
constructor's parameters are exactly the spec's prescription *without*
any clamping of `u1`: weight at flat index `N` (row-major, connections in
order) equals `sqrt(-2 ln u1) * cos(2π u2) * sqrt(2 / fanIn)` with
`u1, u2` the consecutive draws `2N`, `2N+1` of the warmed seeded
generator, and every bias is exactly 0. -/
theorem constructor_matches_spec_noclamp (sizes : List Nat) (seed : Int) :
    netInit sizes seed = netInitSpecNoClamp sizes seed :=
  netInit_eq_spec sizes seed

theorem cos_arg_ne_zero :
    Real.cos (2 * Real.pi * ((1076029857 : ℝ) / 4294967296)) ≠ 0 := by
  intro h0
  rw [Real.cos_eq_zero_iff] at h0
  obtain ⟨n, hn⟩ := h0
  have h1 : ((2 * n + 1 : ℤ) : ℝ) * Real.pi =
      (4 * ((1076029857 : ℝ) / 4294967296)) * Real.pi := by
    push_cast
    nlinarith [hn]
  have h2 : ((2 * n + 1 : ℤ) : ℝ) = 4 * ((1076029857 : ℝ) / 4294967296) :=
    mul_right_cancel₀ Real.pi_ne_zero h1
  have h4 : ((2 * n + 1 : ℤ) : ℝ) * 1073741824 = 1076029857 := by
    rw [h2]; norm_num
  have h5 : (2 * n + 1) * 1073741824 = 1076029857 := by exact_mod_cast h4
  omega

/-- C2 counterexample: for topology `[1,1]` and seed `7407468`, the first
post-warm-up draw is `u1 = 269/2^32 < 1e-7`, so the constructor (which
takes `log u1` directly) and the claim's clamped prescription produce
different first weights: the constructed network is not the clamped-spec
network. -/
theorem constructor_clamped_spec_refuted :
    netInit [1, 1] 7407468 ≠ netInitSpecClamped [1, 1] 7407468 := by
  have hu1 : nthDraw 7407468 0 = 269 / 4294967296 := by
    have h : (mwcStep (mwcNext^[0] (mwcWarm 7407468))).2 = 269 := by decide
    unfold nthDraw mwcVal
    rw [h]; norm_num
  have hu2 : nthDraw 7407468 1 = 1076029857 / 4294967296 := by
    have h : (mwcStep (mwcNext^[1] (mwcWarm 7407468))).2 = 1076029857 := by decide
    unfold nthDraw mwcVal
    rw [h]; norm_num
  have hNo : netInitSpecNoClamp [1, 1] 7407468 =
      ⟨[1, 1], [[[specWeightNoClamp 7407468 1 0]]], [[0]], [], [], [], []⟩ := by
    unfold netInitSpecNoClamp
    norm_num [specNetBuild, List.range_succ]
  have hCl : netInitSpecClamped [1, 1] 7407468 =
      ⟨[1, 1], [[[specWeightClamped 7407468 1 0]]], [[0]], [], [], [], []⟩ := by
    unfold netInitSpecClamped
    norm_num [specNetBuild, List.range_succ]
  rw [netInit_eq_spec, hNo, hCl]
  intro heq
  have hs : specWeightNoClamp 7407468 1 0 = specWeightClamped 7407468 1 0 := by
    have h := congrArg (fun net : Network => ((net.weights.getD 0 []).getD 0 []).getD 0 0) heq
    simpa using h
  unfold specWeightNoClamp specWeightClamped boxMuller at hs
  norm_num [hu1, hu2] at hs
  push_cast at hs
  have hu1pos : (0 : ℝ) < 269 / 4294967296 := by norm_num
  have hu1lt : (269 : ℝ) / 4294967296 < epsClamp := by norm_num [epsClamp]
  have hmax : max epsClamp ((269 : ℝ) / 4294967296) = epsClamp :=
    max_eq_left hu1lt.le
  have hlog : Real.log ((269 : ℝ) / 4294967296) < Real.log epsClamp :=
    Real.log_lt_log hu1pos hu1lt
  have hlogneg : Real.log epsClamp < 0 :=
    Real.log_neg (by norm_num [epsClamp]) (by norm_num [epsClamp])
  have hsq : Real.sqrt (-2 * Real.log (max epsClamp ((269 : ℝ) / 4294967296))) <
      Real.sqrt (-2 * Real.log ((269 : ℝ) / 4294967296)) := by
    rw [hmax]
    exact Real.sqrt_lt_sqrt (by linarith) (by linarith)
  have hs2 : Real.sqrt 2 ≠ 0 := by
    have h := Real.sqrt_pos.2 (show (0:ℝ) < 2 by norm_num)
    linarith
  have hcos := cos_arg_ne_zero
  rw [neg_mul, neg_mul] at hsq
  rcases hs with h | h
  · exact absurd h.symm (ne_of_lt hsq)
  · exact hcos h

theorem exp17_large : (12000000 : ℝ) < Real.exp 17 := by
  have h1 : (2.7182818283 : ℝ) ^ (17 : ℕ) < Real.exp 1 ^ (17 : ℕ) :=
    pow_lt_pow_left Real.exp_one_gt_d9 (by norm_num) (by norm_num)
  have h2 : Real.exp 1 ^ (17 : ℕ) = Real.exp 17 := by
    rw [← Real.exp_one_rpow 17]
    norm_num [← Real.rpow_natCast]
  have h3 : (12000000 : ℝ) < (2.7182818283 : ℝ) ^ (17 : ℕ) := by norm_num
  linarith

theorem sig17_gap : 1 - sigmoid 17 < epsClamp * (1 - epsClamp) ∧
    0 < sigmoid 17 ∧ sigmoid 17 < 1 := by
  have hepos : (0 : ℝ) < Real.exp (-17) := Real.exp_pos _
  have hsigpos : 0 < sigmoid 17 := by
    unfold sigmoid
    positivity
  have hsiglt : sigmoid 17 < 1 := by
    unfold sigmoid
    rw [div_lt_one (by positivity)]
    linarith
  have hgap : 1 - sigmoid 17 < Real.exp (-17) := by
    unfold sigmoid
    have hd : (1:ℝ) - 1 / (1 + Real.exp (-17)) = Real.exp (-17) / (1 + Real.exp (-17)) := by
      field_simp
    rw [hd]
    exact div_lt_self hepos (by linarith)
  have hsmall : Real.exp (-17) < epsClamp * (1 - epsClamp) := by
    rw [Real.exp_neg]
    have h1 : (Real.exp 17)⁻¹ < (12000000 : ℝ)⁻¹ := by
      apply inv_lt_inv_of_lt (by norm_num) exp17_large
    have h2 : ((12000000 : ℝ))⁻¹ < epsClamp * (1 - epsClamp) := by
      norm_num [epsClamp]
    linarith
  exact ⟨by linarith, hsigpos, hsiglt⟩

theorem clamp_at_17 :
    max epsClamp (min (1 - epsClamp) (sigmoid 17)) = 1 - epsClamp := by
  obtain ⟨hgap, hpos, hlt⟩ := sig17_gap
  have heps : (0:ℝ) < epsClamp := by norm_num [epsClamp]
  have heps1 : epsClamp < 1 := by norm_num [epsClamp]
  have hle : 1 - epsClamp ≤ sigmoid 17 := by nlinarith
  rw [min_eq_left hle, max_eq_right (show epsClamp ≤ 1 - epsClamp by norm_num [epsClamp])]

theorem backward_clamped_delta_aux :
    (netC1f.backward [1] [1] 0).biasGrads.getD (netC1f.weights.length - 1) [] ≠
      claimedOutputDelta netC1f [1] 0 := by
  have hclamp := clamp_at_17
  obtain ⟨hgap, hpos, hlt⟩ := sig17_gap
  unfold Network.backward netC1f claimedOutputDelta
  norm_num [backLoop, hclamp, List.mapIdx_cons, List.mapIdx_nil]
  constructor
  · have h1 : sigmoid 17 * (1 - sigmoid 17) < 1 - sigmoid 17 := by nlinarith
    have h2 : sigmoid 17 * (1 - sigmoid 17) < (1 - epsClamp) * epsClamp := by nlinarith
    exact ne_of_lt h2
  · norm_num [epsClamp]

/-- C1 counterexample: on the well-formed engine `netC1` (one connection,
weight 17, bias 0) after `forward [1]` stores pre-activation `[17]`,
`backward([1], [1], 0)` produces an output-layer bias-gradient that
differs from the claim's formula with the clamped `p` in the
logistic-derivative factor: the code multiplies by the *unclamped*
`sigmoid(17)*(1-sigmoid(17))`, and at `z = 17` the clamp is active, so
the two values differ. -/
theorem backward_clamped_delta_refuted :
    wfNet netC1 = true ∧
    netC1.forward [1] = some (netC1f, [17]) ∧
    ([1] : List ℝ).length = ([17] : List ℝ).length ∧ (0:ℝ) ≤ 0 ∧
    (netC1f.backward [1] [1] 0).biasGrads.getD (netC1f.weights.length - 1) [] ≠
      claimedOutputDelta netC1f [1] 0 := by
  refine ⟨by decide, ?_, rfl, le_refl 0, backward_clamped_delta_aux⟩
  show Network.forward netC1 [1] = _
  unfold Network.forward netC1 netC1f forwardLayers
  norm_num [layerZ, List.range_succ]
  rfl

theorem getD_mapIdx {α β : Type} (l : List α) (f : ℕ → α → β) (i : ℕ) (d : α) (d' : β)
    (h : i < l.length) : (l.mapIdx f).getD i d' = f i (l.getD i d) := by
  rw [List.getD_eq_getElem _ _ (by simpa using h), List.getD_eq_getElem _ _ h]
  exact List.getElem_mapIdx

theorem getD_set_self {α : Type} (l : List α) (i : ℕ) (a d : α) (h : i < l.length) :
    (l.set i a).getD i d = a := by
  rw [List.getD_eq_getElem _ _ (by simpa using h)]
  simp [List.getElem_set]

theorem getD_set_ne {α : Type} (l : List α) (i j : ℕ) (a d : α) (h : i ≠ j) :
    (l.set i a).getD j d = l.getD j d := by
  rw [List.getD_eq_getD_get?, List.getD_eq_getD_get?, List.get?_eq_getElem?,
    List.get?_eq_getElem?, List.getElem?_set_ne h]

theorem getD_map' {α β : Type} (l : List α) (f : α → β) (i : ℕ) (d : α) (d' : β)
    (h : i < l.length) : (l.map f).getD i d' = f (l.getD i d) := by
  rw [List.getD_eq_getElem _ _ (by simpa using h), List.getD_eq_getElem _ _ h]
  simp

theorem getD_range_map {β : Type} (n i : ℕ) (f : ℕ → β) (d : β) (h : i < n) :
    ((List.range n).map f).getD i d = f i := by
  rw [List.getD_eq_getElem _ _ (by simpa using h)]
  simp

theorem list_eq_getD {α : Type} (l1 l2 : List α) (d : α) (hlen : l1.length = l2.length)
    (h : ∀ i, i < l1.length → l1.getD i d = l2.getD i d) : l1 = l2 := by
  apply List.ext_getElem hlen
  intro i hi1 hi2
  have h2 := h i hi1
  rwa [List.getD_eq_getElem _ _ hi1, List.getD_eq_getElem _ _ hi2] at h2

theorem getD_zipWith_mul (a b : List ℝ) (i : ℕ) (hi : i < a.length) (hi2 : i < b.length) :
    (List.zipWith (fun x y => x * y) a b).getD i 0 = a.getD i 0 * b.getD i 0 := by
  rw [List.getD_eq_getElem _ _ (by simp; omega), List.getD_eq_getElem _ _ hi,
    List.getD_eq_getElem _ _ hi2]
  simp

theorem getD_mem {α : Type} (l : List α) (i : ℕ) (d : α) (h : i < l.length) :
    l.getD i d ∈ l := by
  rw [List.getD_eq_getElem _ _ h]
  exact List.getElem_mem h

theorem dotList_eq_range_sum : ∀ (a b : List ℝ), a.length = b.length →
    dotList a b = ((List.range b.length).map fun k => b.getD k 0 * a.getD k 0).sum
  | [], [], _ => by simp [dotList]
  | [], b :: bs, h => by simp at h
  | a :: as, [], h => by simp at h
  | a :: as, b :: bs, h => by
    have ih := dotList_eq_range_sum as bs (by simpa using h)
    unfold dotList at ih ⊢
    simp only [List.zipWith_cons_cons, List.sum_cons, List.length_cons,
      List.range_succ_eq_map, List.map_cons, List.map_map]
    rw [ih]
    have hc : (List.range bs.length).map
        ((fun k => (b :: bs).getD k 0 * (a :: as).getD k 0) ∘ Nat.succ)
        = (List.range bs.length).map (fun k => bs.getD k 0 * as.getD k 0) := rfl
    rw [hc]
    simp only [List.getD_cons_zero]
    ring

theorem wfW_len : ∀ (ws : List (List (List ℝ))) (bs : List (List ℝ)),
    wfW ws bs = true → bs.length = ws.length
  | [], [], _ => rfl
  | [], _ :: _, h => by simp [wfW] at h
  | _ :: _, [], h => by simp [wfW] at h
  | w :: ws, b :: bs, h => by
    have h' : wfW ws bs = true := by
      simp only [wfW, Bool.and_eq_true] at h
      exact h.2
    simp [wfW_len ws bs h']

theorem wfW_facts : ∀ (ws : List (List (List ℝ))) (bs : List (List ℝ)),
    wfW ws bs = true → ∀ i, i < ws.length →
      (ws.getD i []).isEmpty = false ∧
      (∀ row ∈ ws.getD i [], row.length = (ws.getD i []).headI.length) ∧
      (bs.getD i []).length = (ws.getD i []).headI.length ∧
      (i + 1 < ws.length →
        (ws.getD (i + 1) []).length = (ws.getD i []).headI.length)
  | [], _, _, i, hi => absurd hi (by simp)
  | _ :: _, [], h, _, _ => by simp [wfW] at h
  | w :: ws, b :: bs, h, 0, hi => by
    simp only [wfW, Bool.and_eq_true] at h
    obtain ⟨⟨⟨⟨h1, h2⟩, h3⟩, h4⟩, h5⟩ := h
    simp only [List.getD_cons_zero]
    refine ⟨by simpa using h1, ?_, by simpa using h3, ?_⟩
    · intro row hrow
      have h2' := List.all_eq_true.mp h2 row hrow
      simpa using h2'
    · intro hlt
      cases ws with
      | nil => simp at hlt
      | cons w' ws' =>
        have hg : (w :: w' :: ws').getD (0 + 1) [] = w' := rfl
        rw [hg]
        simpa using h4
  | w :: ws, b :: bs, h, i + 1, hi => by
    simp only [wfW, Bool.and_eq_true] at h
    obtain ⟨⟨⟨⟨h1, h2⟩, h3⟩, h4⟩, h5⟩ := h
    have hi' : i < ws.length := by simpa using hi
    obtain ⟨a1, a2, a3, a4⟩ := wfW_facts ws bs h5 i hi'
    simp only [List.getD_cons_succ]
    refine ⟨a1, a2, a3, ?_⟩
    intro hlt
    exact a4 (by simpa using hlt)

theorem forwardLayers_decomp : ∀ (ws : List (List (List ℝ))) (bs : List (List ℝ))
    (act : List ℝ) (pre acts : List (List ℝ)),
    wfW ws bs = true → (∀ w0 ws', ws = w0 :: ws' → act.length = w0.length) →
    ∃ P A o, forwardLayers ws bs act pre acts = some (pre ++ P, acts ++ A, o) ∧
      P.length = ws.length ∧ A.length = ws.length ∧
      (∀ i, i < ws.length → (P.getD i []).length = (ws.getD i []).headI.length ∧
        (A.getD i []).length = (ws.getD i []).headI.length) ∧
      (∀ w0 ws', ws = w0 :: ws' →
        A.getD (ws.length - 1) [] = P.getD (ws.length - 1) [] ∧
        o = A.getD (ws.length - 1) []) ∧
      (ws = [] → o = act)
  | [], bs, act, pre, acts, hwf, hact => by
    refine ⟨[], [], act, by simp [forwardLayers], rfl, rfl, ?_, ?_, fun _ => rfl⟩
    · intro i hi; simp at hi
    · intro w0 ws' h; simp at h
  | w :: ws, bs, act, pre, acts, hwf, hact => by
    cases bs with
    | nil => simp [wfW] at hwf
    | cons b bs' =>
    simp only [wfW, Bool.and_eq_true] at hwf
    obtain ⟨⟨⟨⟨h1, h2⟩, h3⟩, h4⟩, h5⟩ := hwf
    have hact0 : act.length = w.length := hact w ws rfl
    have hne : ¬ w.isEmpty = true := by
      intro hc
      rw [hc] at h1
      simp at h1
    have hnlt : ¬ w.length < act.length := by omega
    have hact' : ∀ w0 ws', ws = w0 :: ws' →
        (if ws.isEmpty then layerZ w b act
         else (layerZ w b act).map fun v => max 0 v).length = w0.length := by
      intro w0 ws'' heq
      have h4' := h4
      rw [heq] at h4'
      simp only [beq_iff_eq] at h4'
      have hlen : (if ws.isEmpty then layerZ w b act
          else (layerZ w b act).map fun v => max 0 v).length
          = w.headI.length := by
        split
        · exact layerZ_length w b act
        · simp [layerZ_length]
      rw [hlen, h4']
    obtain ⟨P', A', o, hfl, hPl, hAl, hidx, hlast, hnil⟩ :=
      forwardLayers_decomp ws bs'
        (if ws.isEmpty then layerZ w b act
         else (layerZ w b act).map fun v => max 0 v)
        (pre ++ [layerZ w b act])
        (acts ++ [if ws.isEmpty then layerZ w b act
                  else (layerZ w b act).map fun v => max 0 v])
        h5 hact'
    refine ⟨layerZ w b act ::
      P', (if ws.isEmpty then layerZ w b act
           else (layerZ w b act).map fun v => max 0 v) :: A', o, ?_, ?_, ?_, ?_, ?_, ?_⟩
    · show forwardLayers (w :: ws) (b :: bs') act pre acts = _
      simp only [forwardLayers]
      rw [if_neg hne, if_neg hnlt, hfl]
      simp [List.append_assoc]
    · simpa using hPl
    · simpa using hAl
    · intro i hi
      match i with
      | 0 =>
        constructor
        · exact layerZ_length w b act
        · show (if ws.isEmpty then layerZ w b act
              else (layerZ w b act).map fun v => max 0 v).length = _
          split
          · exact layerZ_length w b act
          · simp [layerZ_length]
      | i + 1 =>
        have hi' : i < ws.length := by simpa using hi
        simpa only [List.getD_cons_succ] using hidx i hi'
    · intro w0 ws'' heq
      cases ws with
      | nil =>
        have hP0 : P' = [] := List.length_eq_zero.mp hPl
        have hA0 : A' = [] := List.length_eq_zero.mp hAl
        subst hP0; subst hA0
        have ho : o = layerZ w b act := hnil rfl
        refine ⟨rfl, ?_⟩
        simpa using ho
      | cons w1 ws2 =>
        obtain ⟨hAP, ho⟩ := hlast w1 ws2 rfl
        have hlen1 : (w :: w1 :: ws2).length - 1 = ws2.length + 1 := by simp
        rw [hlen1]
        have hA : ((if (w1 :: ws2).isEmpty then layerZ w b act
            else (layerZ w b act).map fun v => max 0 v) :: A').getD (ws2.length + 1) []
            = A'.getD (ws2.length) [] := List.getD_cons_succ
        have hP : (layerZ w b act :: P').getD (ws2.length + 1) []
            = P'.getD (ws2.length) [] := List.getD_cons_succ
        rw [hA, hP]
        have hlen2 : (w1 :: ws2).length - 1 = ws2.length := by simp
        rw [hlen2] at hAP ho
        exact ⟨hAP, ho⟩
    · intro h; simp at h

theorem BackShape_of_forward (net0 net : Network) (x out t : List ℝ)
    (hwf : wfNet net0 = true) (hx : x.length = net0.weights.headI.length)
    (hf : net0.forward x = some (net, out)) (ht : t.length = out.length) :
    BackShape net t ∧ net.weights = net0.weights ∧ net.biases = net0.biases := by
  unfold wfNet at hwf
  simp only [Bool.and_eq_true] at hwf
  obtain ⟨hne, hW⟩ := hwf
  have hL : 1 ≤ net0.weights.length := by
    cases hww : net0.weights with
    | nil => rw [hww] at hne; simp at hne
    | cons _ _ => simp [hww]
  obtain ⟨w0, ws', hw⟩ : ∃ w0 ws', net0.weights = w0 :: ws' := by
    cases hww : net0.weights with
    | nil => rw [hww] at hL; simp at hL
    | cons a l => exact ⟨a, l, rfl⟩
  have hact : ∀ w1 ws1, net0.weights = w1 :: ws1 → x.length = w1.length := by
    intro w1 ws1 heq
    rw [heq] at hx
    simpa using hx
  obtain ⟨P, A, o, hfl, hPl, hAl, hidx, hlast, _⟩ :=
    forwardLayers_decomp net0.weights net0.biases x [] [x] hW hact
  obtain ⟨hAP, ho⟩ := hlast w0 ws' hw
  unfold Network.forward at hf
  rw [hfl] at hf
  simp only [List.nil_append, List.singleton_append, Option.some.injEq,
    Prod.mk.injEq] at hf
  obtain ⟨hnet, hout⟩ := hf
  subst hnet
  subst hout
  refine ⟨?_, rfl, rfl⟩
  unfold BackShape
  dsimp only
  refine ⟨hL, by simp [hAl], hPl, wfW_len _ _ hW, ?_, ?_, ?_, ?_, ?_, ?_⟩
  · intro i hi
    match i with
    | 0 =>
      have hh : net0.weights.headI = net0.weights.getD 0 [] := by
        rw [hw]; rfl
      rw [List.getD_cons_zero]
      rw [hh] at hx
      exact hx
    | i + 1 =>
      have hi' : i < net0.weights.length := by omega
      have h2 := (hidx i hi').2
      have hch := (wfW_facts net0.weights net0.biases hW i hi').2.2.2 (by omega)
      simp only [List.getD_cons_succ]
      rw [h2, hch]
  · intro i hi; exact (hidx i hi).1
  · intro i hi; exact (wfW_facts net0.weights net0.biases hW i hi).2.1
  · intro i hi
    exact (wfW_facts net0.weights net0.biases hW i (by omega)).2.2.2 hi
  · have hidx1 : net0.weights.length = (net0.weights.length - 1) + 1 := by omega
    rw [hidx1, List.getD_cons_succ]
    exact hAP
  · rw [ht, ho]
    exact (hidx (net0.weights.length - 1) (by omega)).2

theorem specDeltaD_length (net : Network) (t : List ℝ) (s : ℝ) (h : BackShape net t) :
    ∀ d, d < net.weights.length →
      (specDeltaD net t s d).length =
        (net.weights.getD (net.weights.length - 1 - d) []).headI.length := by
  intro d
  induction d with
  | zero =>
    intro _
    have h0 : specDeltaD net t s 0 = amendedOutputDelta net t s := rfl
    rw [h0]
    unfold amendedOutputDelta
    rw [List.length_mapIdx]
    have h10 := h.2.2.2.2.2.2.2.2.2
    simpa using h10
  | succ d ih =>
    intro hd
    have hstep : specDeltaD net t s (d + 1) =
        hadamard
          (matVecRows (net.weights.getD (net.weights.length - 1 - d) [])
            (specDeltaD net t s d))
          ((net.preActivations.getD (net.weights.length - 2 - d) []).map
            reluDerivative) := rfl
    rw [hstep]
    unfold hadamard matVecRows
    rw [List.length_zipWith, List.length_map, List.length_map]
    have h6 := h.2.2.2.2.2.1
    have h8 := h.2.2.2.2.2.2.2.1
    have hq : net.weights.length - 2 - d < net.weights.length := by
      have := h.1; omega
    rw [h6 _ hq]
    have hup : (net.weights.length - 2 - d) + 1 = net.weights.length - 1 - d := by
      omega
    have h8' := h8 (net.weights.length - 2 - d) (by omega)
    rw [hup] at h8'
    rw [h8']
    have hidx : net.weights.length - 1 - (d + 1) = net.weights.length - 2 - d := by
      omega
    rw [hidx, min_self]

theorem guard_update_eq_outer (actIn dl : List ℝ) (Z : List (List ℝ))
    (hrows : Z.length = actIn.length)
    (hcols : ∀ row ∈ Z, row.length = dl.length) :
    (Z.mapIdx fun j row => row.mapIdx fun k z0 =>
      if j < actIn.length ∧ k < dl.length
      then actIn.getD j 0 * dl.getD k 0 else z0) = outerProd actIn dl := by
  refine list_eq_getD _ _ [] ?_ ?_
  · simp [outerProd, hrows]
  · intro j hj
    have hj' : j < Z.length := by simpa using hj
    have hjA : j < actIn.length := hrows ▸ hj'
    rw [getD_mapIdx _ _ j [] [] hj']
    unfold outerProd
    rw [getD_map' actIn _ j 0 [] hjA]
    refine list_eq_getD _ _ 0 ?_ ?_
    · have hlen := hcols (Z.getD j []) (getD_mem Z j [] hj')
      rw [List.length_mapIdx, List.length_map, hlen]
    · intro k hk
      have hkZ : k < (Z.getD j []).length := by simpa using hk
      have hkd : k < dl.length := by
        rw [← hcols (Z.getD j []) (getD_mem Z j [] hj')]
        exact hkZ
      rw [getD_mapIdx _ _ k 0 0 hkZ, if_pos ⟨hjA, hkd⟩, getD_map' dl _ k 0 0 hkd]

theorem guard_update_zero (net : Network) (t : List ℝ) (h : BackShape net t)
    (m : ℕ) (hm : m < net.weights.length) (dl : List ℝ)
    (hdl : dl.length = (net.weights.getD m []).headI.length) :
    (((net.weights.getD m []).map fun row => row.map fun _ => (0:ℝ)).mapIdx
      fun j row => row.mapIdx fun k z0 =>
        if j < (net.activations.getD m []).length ∧ k < dl.length
        then (net.activations.getD m []).getD j 0 * dl.getD k 0 else z0)
    = outerProd (net.activations.getD m []) dl := by
  apply guard_update_eq_outer
  · rw [List.length_map]
    exact (h.2.2.2.2.1 m hm).symm
  · intro row hrow
    obtain ⟨orig, horig, hmap⟩ := List.mem_map.mp hrow
    rw [← hmap, List.length_map, h.2.2.2.2.2.2.1 m hm orig horig, hdl]

theorem delta_step (net : Network) (t : List ℝ) (s : ℝ) (h : BackShape net t)
    (i' : ℕ) (hm : i' + 1 + 1 ≤ net.weights.length) :
    (((List.range ((net.activations.getD (i' + 1) []).length)).map fun j =>
        ((List.range
            ((specDeltaD net t s (net.weights.length - (i' + 1 + 1))).length)).map
          fun k =>
          (specDeltaD net t s (net.weights.length - (i' + 1 + 1))).getD k 0 *
            ((net.weights.getD (i' + 1) []).getD j []).getD k 0).sum).mapIdx
      fun j d => d * (((net.preActivations.getD i' []).map fun z =>
        if 0 < z then (1:ℝ) else 0).getD j 0)) =
    specDeltaD net t s (net.weights.length - (i' + 1)) := by
  have h5 := h.2.2.2.2.1
  have h6 := h.2.2.2.2.2.1
  have h7 := h.2.2.2.2.2.2.1
  have h8 := h.2.2.2.2.2.2.2.1
  have hδlen : (specDeltaD net t s (net.weights.length - (i' + 1 + 1))).length =
      (net.weights.getD (i' + 1) []).headI.length := by
    have hl := specDeltaD_length net t s h (net.weights.length - (i' + 1 + 1))
      (by omega)
    have hidx : net.weights.length - 1 - (net.weights.length - (i' + 1 + 1))
        = i' + 1 := by omega
    rw [hidx] at hl
    exact hl
  have hrw : net.weights.length - (i' + 1) =
      (net.weights.length - (i' + 1 + 1)) + 1 := by omega
  rw [hrw]
  have hstep : specDeltaD net t s ((net.weights.length - (i' + 1 + 1)) + 1) =
      hadamard
        (matVecRows (net.weights.getD
            (net.weights.length - 1 - (net.weights.length - (i' + 1 + 1))) [])
          (specDeltaD net t s (net.weights.length - (i' + 1 + 1))))
        ((net.preActivations.getD
            (net.weights.length - 2 - (net.weights.length - (i' + 1 + 1))) []).map
          reluDerivative) := rfl
  rw [hstep]
  have hA : net.weights.length - 1 - (net.weights.length - (i' + 1 + 1))
      = i' + 1 := by omega
  have hB : net.weights.length - 2 - (net.weights.length - (i' + 1 + 1)) = i' := by
    omega
  rw [hA, hB]
  have hrelu : ((net.preActivations.getD i' []).map fun z =>
      if 0 < z then (1:ℝ) else 0) =
      (net.preActivations.getD i' []).map reluDerivative := rfl
  refine list_eq_getD _ _ 0 ?_ ?_
  · simp only [List.length_mapIdx, List.length_map, List.length_range]
    unfold hadamard matVecRows
    rw [List.length_zipWith, List.length_map, List.length_map]
    rw [h5 (i' + 1) (by omega), h6 i' (by omega)]
    have h8' := h8 i' (by omega)
    rw [h8', min_self]
  · intro j hj
    have hjA : j < (net.activations.getD (i' + 1) []).length := by simpa using hj
    have hjW : j < (net.weights.getD (i' + 1) []).length := by
      rw [← h5 (i' + 1) (by omega)]
      exact hjA
    rw [getD_mapIdx _ _ j 0 0 (by simpa using hj)]
    rw [getD_range_map _ _ _ _ hjA]
    unfold hadamard
    rw [getD_zipWith_mul _ _ j (by simpa [matVecRows] using hjW)
      (by rw [List.length_map, h6 i' (by omega), ← h8 i' (by omega)]; exact hjW)]
    unfold matVecRows
    rw [getD_map' _ _ j [] 0 hjW]
    have hrowlen : ((net.weights.getD (i' + 1) []).getD j []).length =
        (specDeltaD net t s (net.weights.length - (i' + 1 + 1))).length := by
      rw [hδlen]
      exact h7 (i' + 1) (by omega) _ (getD_mem _ j [] hjW)
    rw [dotList_eq_range_sum _ _ hrowlen]
    rw [hrelu]

theorem backLoop_correct (net : Network) (t : List ℝ) (s : ℝ) (h : BackShape net t) :
    ∀ (c : ℕ), c ≤ net.weights.length →
    ∀ (wg : List (List (List ℝ))) (bg : List (List ℝ)),
    wg.length = net.weights.length → bg.length = net.weights.length →
    (∀ i, i < c → wg.getD i [] =
      (net.weights.getD i []).map fun row => row.map fun _ => (0:ℝ)) →
    (backLoop net.weights net.activations net.preActivations c
        (specDeltaD net t s (net.weights.length - c)) wg bg).1 =
      (List.range net.weights.length).map (fun i =>
        if i < c then outerProd (net.activations.getD i [])
          (specDeltaD net t s (net.weights.length - 1 - i))
        else wg.getD i []) ∧
    (backLoop net.weights net.activations net.preActivations c
        (specDeltaD net t s (net.weights.length - c)) wg bg).2 =
      (List.range net.weights.length).map (fun i =>
        if i < c then specDeltaD net t s (net.weights.length - 1 - i)
        else bg.getD i []) := by
  intro c
  induction c with
  | zero =>
    intro _ wg bg hwg hbg _
    constructor
    · show wg = _
      refine list_eq_getD _ _ [] (by simp [hwg]) ?_
      intro i hi
      rw [getD_range_map _ _ _ _ (by rw [← hwg]; exact hi), if_neg (by omega)]
    · show bg = _
      refine list_eq_getD _ _ [] (by simp [hbg]) ?_
      intro i hi
      rw [getD_range_map _ _ _ _ (by rw [← hbg]; exact hi), if_neg (by omega)]
  | succ m ih =>
    intro hc wg bg hwg hbg hzero
    cases m with
    | zero =>
      have hdl : (specDeltaD net t s (net.weights.length - (0 + 1))).length =
          (net.weights.getD 0 []).headI.length := by
        have hl := specDeltaD_length net t s h (net.weights.length - (0 + 1))
          (by omega)
        have hidx : net.weights.length - 1 - (net.weights.length - (0 + 1)) = 0 := by
          omega
        rw [hidx] at hl
        exact hl
      have hlit : backLoop net.weights net.activations net.preActivations (0 + 1)
          (specDeltaD net t s (net.weights.length - (0 + 1))) wg bg =
          (wg.set 0 ((wg.getD 0 []).mapIdx fun j row =>
            row.mapIdx fun k z0 =>
              if j < (net.activations.getD 0 []).length ∧
                 k < (specDeltaD net t s (net.weights.length - (0 + 1))).length
              then (net.activations.getD 0 []).getD j 0 *
                (specDeltaD net t s (net.weights.length - (0 + 1))).getD k 0
              else z0),
           bg.set 0 (specDeltaD net t s (net.weights.length - (0 + 1)))) := rfl
      rw [hlit, hzero 0 (by omega), guard_update_zero net t h 0 (by omega) _ hdl]
      constructor
      · refine list_eq_getD _ _ [] (by simp [hwg]) ?_
        intro i hi
        have hiL : i < net.weights.length := by simpa [hwg] using hi
        rw [getD_range_map _ _ _ _ hiL]
        cases i with
        | zero =>
          rw [getD_set_self _ _ _ _ (by omega), if_pos (by omega)]
          norm_num
        | succ i2 =>
          rw [getD_set_ne _ _ _ _ _ (by omega), if_neg (by omega)]
      · refine list_eq_getD _ _ [] (by simp [hbg]) ?_
        intro i hi
        have hiL : i < net.weights.length := by simpa [hbg] using hi
        rw [getD_range_map _ _ _ _ hiL]
        cases i with
        | zero =>
          rw [getD_set_self _ _ _ _ (by omega), if_pos (by omega)]
          norm_num
        | succ i2 =>
          rw [getD_set_ne _ _ _ _ _ (by omega), if_neg (by omega)]
    | succ i' =>
      have hdl : (specDeltaD net t s (net.weights.length - (i' + 1 + 1))).length =
          (net.weights.getD (i' + 1) []).headI.length := by
        have hl := specDeltaD_length net t s h
          (net.weights.length - (i' + 1 + 1)) (by omega)
        have hidx : net.weights.length - 1 -
            (net.weights.length - (i' + 1 + 1)) = i' + 1 := by omega
        rw [hidx] at hl
        exact hl
      have hlit : backLoop net.weights net.activations net.preActivations
          (i' + 1 + 1)
          (specDeltaD net t s (net.weights.length - (i' + 1 + 1))) wg bg =
          backLoop net.weights net.activations net.preActivations (i' + 1)
            (((List.range ((net.activations.getD (i' + 1) []).length)).map fun j =>
              ((List.range ((specDeltaD net t s
                  (net.weights.length - (i' + 1 + 1))).length)).map fun k =>
                (specDeltaD net t s (net.weights.length - (i' + 1 + 1))).getD k 0 *
                  ((net.weights.getD (i' + 1) []).getD j []).getD k 0).sum).mapIdx
              fun j d => d * (((net.preActivations.getD i' []).map fun z =>
                if 0 < z then (1:ℝ) else 0).getD j 0))
            (wg.set (i' + 1) ((wg.getD (i' + 1) []).mapIdx fun j row =>
              row.mapIdx fun k z0 =>
                if j < (net.activations.getD (i' + 1) []).length ∧
                   k < (specDeltaD net t s
                     (net.weights.length - (i' + 1 + 1))).length
                then (net.activations.getD (i' + 1) []).getD j 0 *
                  (specDeltaD net t s
                    (net.weights.length - (i' + 1 + 1))).getD k 0
                else z0))
            (bg.set (i' + 1)
              (specDeltaD net t s (net.weights.length - (i' + 1 + 1)))) := rfl
      rw [hlit, hzero (i' + 1) (by omega),
        guard_update_zero net t h (i' + 1) (by omega) _ hdl,
        delta_step net t s h i' (by omega)]
      have hz' : ∀ i, i < i' + 1 →
          (wg.set (i' + 1) (outerProd (net.activations.getD (i' + 1) [])
            (specDeltaD net t s (net.weights.length - (i' + 1 + 1))))).getD i [] =
          (net.weights.getD i []).map fun row => row.map fun _ => (0:ℝ) := by
        intro i hi2
        rw [getD_set_ne _ _ _ _ _ (by omega)]
        exact hzero i (by omega)
      obtain ⟨r1, r2⟩ := ih (by omega)
        (wg.set (i' + 1) (outerProd (net.activations.getD (i' + 1) [])
          (specDeltaD net t s (net.weights.length - (i' + 1 + 1)))))
        (bg.set (i' + 1)
          (specDeltaD net t s (net.weights.length - (i' + 1 + 1))))
        (by simp [hwg]) (by simp [hbg]) hz'
      rw [r1, r2]
      constructor
      · refine list_eq_getD _ _ [] (by simp) ?_
        intro i hi
        have hiL : i < net.weights.length := by simpa using hi
        rw [getD_range_map _ _ _ _ hiL, getD_range_map _ _ _ _ hiL]
        rcases Nat.lt_trichotomy i (i' + 1) with hcase | hcase | hcase
        · have hB : i < i' + 1 + 1 := by omega
          rw [if_pos hcase, if_pos hB]
        · subst hcase
          have hA1 : ¬ (i' + 1 < i' + 1) := by omega
          have hA2 : i' + 1 < i' + 1 + 1 := by omega
          rw [if_neg hA1, if_pos hA2, getD_set_self _ _ _ _ (by omega)]
          have hx : net.weights.length - (i' + 1 + 1) =
              net.weights.length - 1 - (i' + 1) := by omega
          rw [hx]
        · have hC1 : ¬ i < i' + 1 := by omega
          have hC2 : ¬ i < i' + 1 + 1 := by omega
          rw [if_neg hC1, if_neg hC2, getD_set_ne _ _ _ _ _ (by omega)]
      · refine list_eq_getD _ _ [] (by simp) ?_
        intro i hi
        have hiL : i < net.weights.length := by simpa using hi
        rw [getD_range_map _ _ _ _ hiL, getD_range_map _ _ _ _ hiL]
        rcases Nat.lt_trichotomy i (i' + 1) with hcase | hcase | hcase
        · have hB : i < i' + 1 + 1 := by omega
          rw [if_pos hcase, if_pos hB]
        · subst hcase
          have hA1 : ¬ (i' + 1 < i' + 1) := by omega
          have hA2 : i' + 1 < i' + 1 + 1 := by omega
          rw [if_neg hA1, if_pos hA2, getD_set_self _ _ _ _ (by omega)]
          have hx : net.weights.length - (i' + 1 + 1) =
              net.weights.length - 1 - (i' + 1) := by omega
          rw [hx]
        · have hC1 : ¬ i < i' + 1 := by omega
          have hC2 : ¬ i < i' + 1 + 1 := by omega
          rw [if_neg hC1, if_neg hC2, getD_set_ne _ _ _ _ _ (by omega)]

theorem delta1_eq_amended (net : Network) (t : List ℝ) (s : ℝ) (h : BackShape net t)
    (hs : 0 ≤ s) :
    ((t.mapIdx fun i y =>
        (-y / (((net.activations.getD (net.activations.length - 1) []).map
              sigmoid).map fun v => max epsClamp (min (1 - epsClamp) v)).getD i 0 +
          (1 - y) / (1 - (((net.activations.getD (net.activations.length - 1)
              []).map sigmoid).map fun v =>
              max epsClamp (min (1 - epsClamp) v)).getD i 0)) +
        (if 0 < s then s * 4 * (1 - 2 * (((net.activations.getD
            (net.activations.length - 1) []).map sigmoid).map fun v =>
            max epsClamp (min (1 - epsClamp) v)).getD i 0) else 0)).mapIdx
      fun i d => d * (((net.activations.getD (net.activations.length - 1) []).map
        sigmoid).map fun v => v * (1 - v)).getD i 0) =
    specDeltaD net t s (net.weights.length - net.weights.length) := by
  have h00 : net.weights.length - net.weights.length = 0 := by omega
  rw [h00]
  have hs0 : specDeltaD net t s 0 = amendedOutputDelta net t s := rfl
  rw [hs0]
  have hacts : net.activations.getD (net.activations.length - 1) [] =
      net.preActivations.getD (net.weights.length - 1) [] := by
    rw [h.2.1, Nat.add_sub_cancel]
    exact h.2.2.2.2.2.2.2.2.1
  rw [hacts]
  unfold amendedOutputDelta
  rw [h.2.2.1]
  have h6 := h.2.2.2.2.2.1
  have h10 := h.2.2.2.2.2.2.2.2.2
  refine list_eq_getD _ _ 0 (by simp only [List.length_mapIdx]) ?_
  intro i hi
  have hit : i < t.length := by simpa using hi
  have hiP : i < (net.preActivations.getD (net.weights.length - 1) []).length := by
    rw [h6 (net.weights.length - 1) (by have := h.1; omega), ← h10]
    exact hit
  have hiPm : i < ((net.preActivations.getD (net.weights.length - 1) []).map
      sigmoid).length := by simpa using hiP
  rw [getD_mapIdx _ _ i 0 0 (by simpa using hit)]
  rw [getD_mapIdx _ _ i 0 0 hit]
  rw [getD_mapIdx _ _ i 0 0 hit]
  rw [getD_map' _ _ i 0 0 hiPm]
  rw [getD_map' _ _ i 0 0 hiPm]
  rw [getD_map' _ _ i 0 0 hiP]
  rcases lt_or_eq_of_le hs with hpos | hzero0
  · rw [if_pos hpos]
  · have hneg : ¬ 0 < s := by rw [← hzero0]; exact lt_irrefl 0
    rw [if_neg hneg, ← hzero0]
    ring

/-- C1 (corrected): after a successful `forward` on a well-formed engine,
`backward(x, target, s)` with `s ≥ 0` computes, for every connection `i`,
`weightGrads[i] = activations[i] ⊗ δ_i` and `biasGrads[i] = δ_i`, where
the output-layer delta is `(-y/p + (1-y)/(1-p) + s·4·(1-2p)) · q·(1-q)`
with `q` the *unclamped* sigmoid output and `p` its clamp into
`[ε, 1-ε]` — the clamped `p` feeds only the loss-gradient factor, not the
sigmoid-derivative factor as the original claim stated — and the hidden
deltas follow the claimed recurrence
`δ_{i-1} = (W_i · δ_i) ⊙ reluDerivative(z_{i-1})`. -/
theorem backward_matches_spec (net0 net : Network) (x out t : List ℝ) (s : ℝ)
    (hwf : wfNet net0 = true) (hx : x.length = net0.weights.headI.length)
    (hf : net0.forward x = some (net, out)) (ht : t.length = out.length)
    (hs : 0 ≤ s) :
    (net.backward x t s).weightGrads =
      (List.range net.weights.length).map (fun i =>
        outerProd (net.activations.getD i [])
          (specDeltaD net t s (net.weights.length - 1 - i))) ∧
    (net.backward x t s).biasGrads =
      (List.range net.weights.length).map (fun i =>
        specDeltaD net t s (net.weights.length - 1 - i)) := by
  obtain ⟨hsh, hWeq, hBeq⟩ := BackShape_of_forward net0 net x out t hwf hx hf ht
  have hzg : ∀ i, i < net.weights.length →
      (net.weights.map fun w => w.map fun row => row.map fun _ => (0:ℝ)).getD i []
      = (net.weights.getD i []).map fun row => row.map fun _ => (0:ℝ) := by
    intro i hiL
    exact getD_map' _ _ i [] [] hiL
  obtain ⟨r1, r2⟩ := backLoop_correct net t s hsh net.weights.length (le_refl _)
    (net.weights.map fun w => w.map fun row => row.map fun _ => (0:ℝ))
    (net.biases.map fun b => b.map fun _ => (0:ℝ))
    (by simp) (by simp [hsh.2.2.2.1]) hzg
  constructor
  · simp only [Network.backward]
    rw [delta1_eq_amended net t s hsh hs]
    rw [r1]
    refine list_eq_getD _ _ [] (by simp) ?_
    intro i hi
    have hiL : i < net.weights.length := by simpa using hi
    rw [getD_range_map _ _ _ _ hiL, getD_range_map _ _ _ _ hiL, if_pos hiL]
  · simp only [Network.backward]
    rw [delta1_eq_amended net t s hsh hs]
    rw [r2]
    refine list_eq_getD _ _ [] (by simp) ?_
    intro i hi
    have hiL : i < net.weights.length := by simpa using hi
    rw [getD_range_map _ _ _ _ hiL, getD_range_map _ _ _ _ hiL, if_pos hiL]

theorem backward_matches_spec_witness :
    wfNet exNet = true ∧
    ([1, 1] : List ℝ).length = exNet.weights.headI.length ∧
    exNet.forward [1, 1] = some (exNetF, [3]) ∧
    ([1] : List ℝ).length = ([3] : List ℝ).length ∧ (0:ℝ) ≤ 0 ∧
    ((exNetF.backward [1, 1] [1] 0).weightGrads =
      (List.range exNetF.weights.length).map (fun i =>
        outerProd (exNetF.activations.getD i [])
          (specDeltaD exNetF [1] 0 (exNetF.weights.length - 1 - i))) ∧
     (exNetF.backward [1, 1] [1] 0).biasGrads =
      (List.range exNetF.weights.length).map (fun i =>
        specDeltaD exNetF [1] 0 (exNetF.weights.length - 1 - i))) := by
  have hwf : wfNet exNet = true := by decide
  have hf : exNet.forward [1, 1] = some (exNetF, [3]) := by
    unfold Network.forward exNet exNetF forwardLayers
    norm_num [layerZ, List.range_succ]
    rfl
  exact ⟨hwf, rfl, hf, rfl, le_refl 0,
    backward_matches_spec exNet exNetF [1, 1] [3] [1] 0 hwf rfl hf rfl (le_refl 0)⟩
